import Mathlib

/-!
# Verification of the SVD factor extraction module

Shallow embedding of the module providing the functions
svd_factor_extraction and apply_svd_factors, together with proofs of the
specified properties.

Modelling conventions:
* A float cell is modelled by the type Val, defined as an optional rational:
  some q models a finite float value, none models a NaN (a pandas missing
  value) or a non-finite value produced by division by zero.  Exact rational
  arithmetic stands in for float arithmetic.
* A pandas DataFrame is modelled by the structure DF: a row-identifier list
  (the index) together with an ordered list of named columns.
* The numerical decomposition routines (the primary one and the scipy
  fallback) are modelled as oracle parameters of type SvdOracle: they receive
  the standardized matrix and either fail (non-convergence) or return
  matrices U, S, Vt whose shapes follow the documented contract of a thin
  decomposition (U is rows by m, S has length m, Vt is m by columns, with
  m the minimum of the two dimensions).  Properties of the returned
  decomposition (exact recomposition, orthonormality) are hypotheses of the
  theorems that need them.
* The square root used inside the standard deviation is likewise an
  explicit function parameter of the embedding; no claim depends on its
  exact values.
* Label alignment between a frame and a series (used by fillna and by the
  elementwise arithmetic) is modelled positionally at fit time, where the
  series is derived from the very frame it is aligned with, and by
  label lookup at apply time, where the statistics table is keyed by factor
  name; theorems about apply carry the hypothesis that the statistics
  table is indexed exactly by the factor-name list, which is how fit
  produces it.
-/

namespace FactorSVD

/-- A float cell: some q is a finite value, none is NaN/undefined
(missing data, or the result of dividing by zero or by NaN). -/
abbrev Val := Option ℚ

/-- Float subtraction: NaN propagates. -/
def fsub (a b : Val) : Val :=
  match a, b with
  | some x, some y => some (x - y)
  | _, _ => none

/-- Float division: NaN propagates, and a zero divisor yields a non-finite
result, conflated with none. -/
def fdiv (a b : Val) : Val :=
  match a, b with
  | some x, some y => if y = 0 then none else some (x / y)
  | _, _ => none

/-- fillna on one cell: a missing cell is replaced by the fill value
(itself possibly missing, in which case the cell stays missing). -/
def ffill (a fill : Val) : Val :=
  match a with
  | some x => some x
  | none => fill

/-- The finite (non-missing) values of a column, in order. -/
def presentVals (xs : List Val) : List ℚ := xs.filterMap id

/-- pandas Series.mean: the mean of the non-missing values, NaN when there
are none. -/
def colMean (xs : List Val) : Val :=
  let p := presentVals xs
  if p.length = 0 then none else some (p.sum / (p.length : ℚ))

/-- Sum of squared deviations of a list about a point. -/
def sqDevSum (p : List ℚ) (m : ℚ) : ℚ :=
  (p.map (fun x => (x - m) ^ 2)).sum

/-- pandas sample variance (ddof = 1) over the non-missing values: NaN when
fewer than two values are present. -/
def colVar (xs : List Val) : Val :=
  let p := presentVals xs
  if p.length ≤ 1 then none
  else some (sqDevSum p (p.sum / (p.length : ℚ)) / ((p.length : ℚ) - 1))

/-- pandas Series.std: square root of the sample variance.  The square root
function is a parameter of the embedding. -/
def colStd (sqrt : ℚ → ℚ) (xs : List Val) : Val :=
  (colVar xs).map sqrt

/-- A pandas DataFrame: a row-identifier list and named columns in order. -/
structure DF where
  index : List ℤ
  cols : List (String × List Val)
deriving DecidableEq

/-- Well-formedness of a frame: every column has one cell per row. -/
def DF.WF (df : DF) : Prop :=
  ∀ p ∈ df.cols, p.2.length = df.index.length

instance (df : DF) : Decidable df.WF := List.decidableBAll _ _

/-- Column lookup by label (the first column with the given name). -/
def DF.getCol (df : DF) (name : String) : Option (List Val) :=
  (df.cols.find? (fun p => p.1 == name)).map Prod.snd

/-- data[top_factors]: select the named columns in the order of the list;
a missing label raises a KeyError. -/
def selectCols (df : DF) : List String → Except String (List (List Val))
  | [] => Except.ok []
  | nm :: rest =>
    match df.getCol nm with
    | none => Except.error ("KeyError: " ++ nm)
    | some c => (selectCols df rest).map (fun cs => c :: cs)

/-- factor_data.mean(): per-column means. -/
def colsMeans (cs : List (List Val)) : List Val := cs.map colMean

/-- factor_data.std(): per-column sample standard deviations. -/
def colsStds (sqrt : ℚ → ℚ) (cs : List (List Val)) : List Val :=
  cs.map (colStd sqrt)

/-- factor_data.fillna(means): fill each column's missing cells with that
column's mean. -/
def colsFilled (cs : List (List Val)) : List (List Val) :=
  List.zipWith (fun c m => c.map (fun x => ffill x m)) cs (colsMeans cs)

/-- (factor_data - means) / stds after the fill: the standardized columns of
the training frame. -/
def colsStandardized (sqrt : ℚ → ℚ) (cs : List (List Val)) : List (List Val) :=
  List.zipWith (fun c ms => c.map (fun x => fdiv (fsub x ms.1) ms.2))
    (colsFilled cs) ((colsMeans cs).zip (colsStds sqrt cs))

/-- .values: the row-major matrix of a list of columns (r rows, k columns). -/
def stdMatrix (r k : ℕ) (ls : List (List Val)) : Matrix (Fin r) (Fin k) Val :=
  Matrix.of fun i j => ((ls.getD j.val []).getD i.val none)

/-- The result of a successful thin decomposition of an r by k matrix, with
the shape contract of numpy.linalg.svd with full_matrices=False. -/
structure SvdOut (r k : ℕ) where
  U : Matrix (Fin r) (Fin (min r k)) ℚ
  S : Fin (min r k) → ℚ
  Vt : Matrix (Fin (min r k)) (Fin k) ℚ

/-- A decomposition routine: may fail (non-convergence) or return U, S, Vt. -/
abbrev SvdOracle := (r k : ℕ) → Matrix (Fin r) (Fin k) Val → Except String (SvdOut r k)

/-- The column labels SVD_Factor_1 .. SVD_Factor_n. -/
def svdNames (n : ℕ) : List String :=
  (List.range n).map (fun i => "SVD_Factor_" ++ toString (i + 1))

/-- pd.DataFrame(values, columns, index): fails with a ValueError unless the
label counts match the value shape. -/
def dfOfMatrix (idx : List ℤ) (names : List String) {r c : ℕ}
    (M : Matrix (Fin r) (Fin c) Val) : Except String DF :=
  if names.length = c ∧ idx.length = r then
    Except.ok
      { index := idx
        cols := (List.finRange c).map
          (fun j => (names.getD j.val "", (List.finRange r).map (fun i => M i j))) }
  else Except.error "ValueError: shape mismatch"

/-- As dfOfMatrix, for a matrix of finite values. -/
def dfOfMatrixQ (idx : List ℤ) (names : List String) {r c : ℕ}
    (M : Matrix (Fin r) (Fin c) ℚ) : Except String DF :=
  dfOfMatrix idx names (Matrix.of fun i j => some (M i j))

/-- The signal-weights DataFrame: rows indexed by factor name, columns by
SVD factor label, and the underlying row-major value array. -/
structure WeightsDF where
  index : List String
  colNames : List String
  values : List (List ℚ)
deriving DecidableEq

/-- pd.DataFrame(array, columns, index) for the weights table. -/
def wdfOfMatrix (idx : List String) (names : List String) {r c : ℕ}
    (M : Matrix (Fin r) (Fin c) ℚ) : Except String WeightsDF :=
  if names.length = c ∧ idx.length = r then
    Except.ok
      { index := idx
        colNames := names
        values := (List.finRange r).map
          (fun i => (List.finRange c).map (fun j => M i j)) }
  else Except.error "ValueError: shape mismatch"

/-- The scaling-information DataFrame: one row per factor name, holding the
mean and std columns. -/
structure ScalingDF where
  rows : List (String × Val × Val)
deriving DecidableEq

/-- The four outputs of svd_factor_extraction. -/
structure FitRes where
  factors : DF
  singvals : List ℚ
  weights : WeightsDF
  scaling : ScalingDF
deriving DecidableEq

/-- The construction of the fit outputs from the decomposition:
selected_factors = U[:, :n] @ diag(S[:n]); the factor frame receives the
SVD factor labels and the training index; the weights are Vt[:n, :]
transposed, indexed by the factor names; the scaling table pairs each
factor name with its mean and std. -/
def buildFitRes {r k : ℕ} (idx : List ℤ) (top_factors : List String)
    (n_factors : ℕ) (means stds : List Val) (out : SvdOut r k) :
    Except String FitRes :=
  let m := min r k
  let n' := min n_factors m
  let hn : n' ≤ m := Nat.min_le_right _ _
  let Un : Matrix (Fin r) (Fin n') ℚ := out.U.submatrix id (Fin.castLE hn)
  let Sn : Fin n' → ℚ := fun j => out.S (Fin.castLE hn j)
  let selected : Matrix (Fin r) (Fin n') ℚ := Un * Matrix.diagonal Sn
  match dfOfMatrixQ idx (svdNames n_factors) selected with
  | Except.error e => Except.error e
  | Except.ok fdf =>
    match wdfOfMatrix top_factors (svdNames n_factors)
        ((out.Vt.submatrix (Fin.castLE hn) id).transpose) with
    | Except.error e => Except.error e
    | Except.ok wts =>
      Except.ok
        { factors := fdf
          singvals := (List.finRange m).map out.S
          weights := wts
          scaling := { rows := top_factors.zip (means.zip stds) } }

/-- svd_factor_extraction: select and copy the factor columns, record the
column means and stds, fill missing values with the means, standardize,
decompose (with a single fallback to the alternate routine on failure of
the primary one, logging a diagnostic message), and build the outputs.
The first component of the result collects the printed diagnostics. -/
def fitZ (sqrt : ℚ → ℚ) (data : DF) (top_factors : List String)
    (cs : List (List Val)) :
    Matrix (Fin data.index.length) (Fin top_factors.length) Val :=
  stdMatrix data.index.length top_factors.length (colsStandardized sqrt cs)

def svd_factor_extraction (sqrt : ℚ → ℚ) (npSvd spSvd : SvdOracle)
    (data : DF) (top_factors : List String) (n_factors : ℕ) :
    List String × Except String FitRes :=
  match selectCols data top_factors with
  | Except.error e => ([], Except.error e)
  | Except.ok cs =>
    let r := data.index.length
    let k := top_factors.length
    let means := colsMeans cs
    let stds := colsStds sqrt cs
    match npSvd r k (fitZ sqrt data top_factors cs) with
    | Except.ok out =>
      ([], buildFitRes data.index top_factors n_factors means stds out)
    | Except.error e =>
      match spSvd r k (fitZ sqrt data top_factors cs) with
      | Except.ok out =>
        (["SVD calculation error: " ++ e],
         buildFitRes data.index top_factors n_factors means stds out)
      | Except.error e2 => (["SVD calculation error: " ++ e], Except.error e2)

/-- Lookup of the (mean, std) pair of a factor name in the scaling table;
an absent label behaves as a missing statistic (pandas alignment yields
NaN there). -/
def lookupScaling (si : ScalingDF) (nm : String) : Val × Val :=
  match si.rows.find? (fun p => p.1 == nm) with
  | some p => p.2
  | none => (none, none)

/-- The (mean, std) pairs used by apply, one per selected factor name,
taken from the scaling table. -/
def applyScalingPairs (si : ScalingDF) (top_factors : List String) :
    List (Val × Val) :=
  top_factors.map (lookupScaling si)

/-- test_factor_data.fillna(means): fill each column's missing cells with
the training mean looked up in the scaling table. -/
def applyFilled (si : ScalingDF) (top_factors : List String)
    (cs : List (List Val)) : List (List Val) :=
  List.zipWith (fun c ms => c.map (fun x => ffill x ms.1))
    cs (applyScalingPairs si top_factors)

/-- (test_factor_data - means) / stds after the fill: the standardized
columns of the test frame, using the training statistics. -/
def applyStandardized (si : ScalingDF) (top_factors : List String)
    (cs : List (List Val)) : List (List Val) :=
  List.zipWith (fun c ms => c.map (fun x => fdiv (fsub x ms.1) ms.2))
    (applyFilled si top_factors cs) (applyScalingPairs si top_factors)

/-- numpy matrix product of the standardized test values (r by k, possibly
containing NaN, which propagates into every entry of its row) with the raw
weights array; fails with a ValueError when the inner dimensions disagree.
The column count of the product is read off the first row of the weights
array. -/
def npMatmulVal (r k : ℕ) (Z : Matrix (Fin r) (Fin k) Val)
    (W : List (List ℚ)) : Except String ((nw : ℕ) × Matrix (Fin r) (Fin nw) Val) :=
  let nw := ((W.head?).map List.length).getD 0
  if W.length = k ∧ W.all (fun row => row.length = nw) then
    Except.ok ⟨nw, Matrix.of fun i l =>
      if (List.finRange k).all (fun j => (Z i j).isSome) then
        some (∑ j : Fin k, (Z i j).getD 0 * ((W.getD j.val []).getD l.val 0))
      else none⟩
  else Except.error "ValueError: matmul dimension mismatch"

/-- apply_svd_factors: select and copy the factor columns of the test frame,
fill missing values with the training means, standardize with the training
statistics, project through the weights array, and build the output frame
with the SVD factor labels and the test frame's index. -/
def apply_svd_factors (test_data : DF) (top_factors : List String)
    (signal_weights : WeightsDF) (scaling_info : ScalingDF)
    (n_factors : ℕ) : Except String DF :=
  match selectCols test_data top_factors with
  | Except.error e => Except.error e
  | Except.ok cs =>
    let r := test_data.index.length
    let k := top_factors.length
    let Z : Matrix (Fin r) (Fin k) Val :=
      stdMatrix r k (applyStandardized scaling_info top_factors cs)
    match npMatmulVal r k Z signal_weights.values with
    | Except.error e => Except.error e
    | Except.ok P => dfOfMatrix test_data.index (svdNames n_factors) P.2

/-! ## Basic lemmas -/

theorem svdNames_length (n : ℕ) : (svdNames n).length = n := by
  simp [svdNames]

theorem getD_finRange_map {α : Type} (l : List α) (c : ℕ) (d : α)
    (h : l.length = c) :
    (List.finRange c).map (fun j => l.getD j.val d) = l := by
  subst h
  apply List.ext_getElem
  · simp
  · intro i h1 h2
    simp only [List.getElem_map, List.getElem_finRange]
    rw [List.getD_eq_getElem?_getD, List.getElem?_eq_getElem (by simpa using h2)]
    rfl

theorem selectCols_ok_length {df : DF} {names : List String}
    {cs : List (List Val)} (h : selectCols df names = Except.ok cs) :
    cs.length = names.length := by
  induction names generalizing cs with
  | nil =>
    simp only [selectCols] at h
    cases h
    rfl
  | cons nm rest ih =>
    simp only [selectCols] at h
    cases hc : df.getCol nm with
    | none => rw [hc] at h; cases h
    | some c =>
      rw [hc] at h
      cases hr : selectCols df rest with
      | error e => rw [hr] at h; cases h
      | ok cs' =>
        rw [hr] at h
        simp only [Except.map] at h
        cases h
        simp [ih hr]

theorem selectCols_error_of_missing {df : DF} {names : List String}
    (h : ∃ nm ∈ names, df.getCol nm = none) :
    ∃ nm ∈ names, df.getCol nm = none ∧
      selectCols df names = Except.error ("KeyError: " ++ nm) := by
  induction names with
  | nil => simp at h
  | cons a rest ih =>
    cases hc : df.getCol a with
    | none =>
      exact ⟨a, List.mem_cons_self a rest, hc, by simp [selectCols, hc]⟩
    | some c =>
      obtain ⟨nm, hmem, hnone⟩ := h
      rcases List.mem_cons.mp hmem with rfl | hrest
      · rw [hc] at hnone; cases hnone
      · obtain ⟨nm', hmem', hnone', herr⟩ := ih ⟨nm, hrest, hnone⟩
        refine ⟨nm', List.mem_cons_of_mem _ hmem', hnone', ?_⟩
        simp [selectCols, hc, herr, Except.map]

/-- Inversion of a successful construction of the fit outputs: the shape
conditions hold and every component has the documented form. -/
theorem buildFitRes_ok_parts {r k : ℕ} {idx : List ℤ} {tf : List String}
    {n : ℕ} {means stds : List Val} {out : SvdOut r k} {res : FitRes}
    (h : buildFitRes idx tf n means stds out = Except.ok res) :
    n ≤ min r k ∧ idx.length = r ∧ tf.length = k ∧
    res.factors.index = idx ∧
    res.factors.cols.length = n ∧
    (∀ p ∈ res.factors.cols, p.2.length = r) ∧
    res.factors.cols.map Prod.fst = svdNames n ∧
    res.singvals = (List.finRange (min r k)).map out.S ∧
    res.weights.index = tf ∧
    res.weights.colNames = svdNames n ∧
    res.weights.values.length = k ∧
    (∀ row ∈ res.weights.values, row.length = n) ∧
    res.scaling.rows = tf.zip (means.zip stds) := by
  simp only [buildFitRes] at h
  split at h
  · exact Except.noConfusion h
  · split at h
    · exact Except.noConfusion h
    · rename_i x1 fdfv heq x2 wtsv heq2
      cases h
      simp only [dfOfMatrixQ, dfOfMatrix] at heq
      split at heq
      · rename_i hc1
        cases heq
        simp only [wdfOfMatrix] at heq2
        split at heq2
        · rename_i hc2
          cases heq2
          obtain ⟨hlen1, hidx⟩ := hc1
          obtain ⟨hlen2, htf⟩ := hc2
          rw [svdNames_length] at hlen1
          have hmin : min n (min r k) = n := hlen1.symm
          have hn : n ≤ min r k := min_eq_left_iff.mp hmin
          refine ⟨hn, hidx, htf, rfl, ?_, ?_, ?_, rfl, rfl, rfl, ?_, ?_, rfl⟩
          · simp [hmin]
          · intro p hp
            simp only [List.mem_map] at hp
            obtain ⟨j, _, rfl⟩ := hp
            simp
          · rw [List.map_map]
            exact getD_finRange_map _ _ _ (by simp [svdNames_length, hmin])
          · simp [htf]
          · intro row hrow
            simp only [List.mem_map] at hrow
            obtain ⟨i, _, rfl⟩ := hrow
            simp [hmin]
        · exact Except.noConfusion heq2
      · exact Except.noConfusion heq

/-- A successful extraction goes through buildFitRes with the means and
stds of the selected columns, for some decomposition returned by one of
the two routines. -/
theorem fit_ok_parts {sqrt : ℚ → ℚ} {np sp : SvdOracle} {data : DF}
    {tf : List String} {n : ℕ} {cs : List (List Val)} {res : FitRes}
    (hsel : selectCols data tf = Except.ok cs)
    (hres : (svd_factor_extraction sqrt np sp data tf n).2 = Except.ok res) :
    ∃ out : SvdOut data.index.length tf.length,
      buildFitRes data.index tf n (colsMeans cs) (colsStds sqrt cs) out =
        Except.ok res := by
  simp only [svd_factor_extraction, hsel] at hres
  split at hres
  · exact ⟨_, hres⟩
  · split at hres
    · exact ⟨_, hres⟩
    · exact Except.noConfusion hres

/-- The construction of the fit outputs succeeds whenever the requested
component count is at most min(rows, k). -/
theorem buildFitRes_ok_of {r k : ℕ} (idx : List ℤ) (tf : List String)
    (n : ℕ) (means stds : List Val) (out : SvdOut r k)
    (hn : n ≤ min r k) (hidx : idx.length = r) (htf : tf.length = k) :
    ∃ res, buildFitRes idx tf n means stds out = Except.ok res := by
  have hmin : min n (min r k) = n := min_eq_left hn
  have c1 : (svdNames n).length = min n (min r k) ∧ idx.length = r :=
    ⟨by rw [svdNames_length, hmin], hidx⟩
  have c2 : (svdNames n).length = min n (min r k) ∧ tf.length = k :=
    ⟨by rw [svdNames_length, hmin], htf⟩
  cases hb : buildFitRes idx tf n means stds out with
  | ok res => exact ⟨res, rfl⟩
  | error e =>
    exfalso
    simp only [buildFitRes, dfOfMatrixQ, dfOfMatrix, wdfOfMatrix] at hb
    rw [if_pos c1, if_pos c2] at hb
    exact Except.noConfusion hb

theorem getD_map_of_lt {α β : Type} (f : α → β) (l : List α) (j : ℕ)
    (d : β) (d' : α) (h : j < l.length) :
    (l.map f).getD j d = f (l.getD j d') := by
  rw [List.getD_eq_getElem?_getD, List.getElem?_map, List.getElem?_eq_getElem h,
    List.getD_eq_getElem?_getD, List.getElem?_eq_getElem h]
  rfl

theorem getD_zip3 {α β γ : Type} (l1 : List α) (l2 : List β) (l3 : List γ)
    (j : ℕ) (d1 : α) (d2 : β) (d3 : γ)
    (h1 : j < l1.length) (h2 : l2.length = l1.length)
    (h3 : l3.length = l1.length) :
    (l1.zip (l2.zip l3)).getD j (d1, (d2, d3)) =
      (l1.getD j d1, l2.getD j d2, l3.getD j d3) := by
  have hz : j < (l1.zip (l2.zip l3)).length := by
    simp only [List.length_zip]
    omega
  rw [List.getD_eq_getElem?_getD, List.getElem?_eq_getElem hz]
  simp only [List.getElem_zip, Option.getD_some]
  rw [List.getD_eq_getElem?_getD, List.getElem?_eq_getElem h1,
    List.getD_eq_getElem?_getD, List.getElem?_eq_getElem (by omega : j < l2.length),
    List.getD_eq_getElem?_getD, List.getElem?_eq_getElem (by omega : j < l3.length)]
  rfl

theorem colStd_eq (sqrt : ℚ → ℚ) (xs : List Val) :
    colStd sqrt xs =
      if (presentVals xs).length ≤ 1 then none
      else some (sqrt (sqDevSum (presentVals xs)
          ((presentVals xs).sum / ((presentVals xs).length : ℚ)) /
        (((presentVals xs).length : ℚ) - 1))) := by
  simp only [colStd, colVar]
  split
  · rfl
  · rfl

instance {e a : Type} [DecidableEq e] [DecidableEq a] :
    DecidableEq (Except e a) := fun x y => by
  cases x <;> cases y <;> try (exact isFalse (fun h => Except.noConfusion h))
  · rename_i e1 e2
    exact decidable_of_iff (e1 = e2) (by simp)
  · rename_i a1 a2
    exact decidable_of_iff (a1 = a2) (by simp)

/-- An always-failing decomposition routine. -/
def errOracle : SvdOracle := fun _ _ _ => Except.error "LinAlgError"

/-- A decomposition routine returning zero matrices (shapes only). -/
def zeroOracle : SvdOracle := fun _ _ _ => Except.ok ⟨0, fun _ => 0, 0⟩

/-! ## Claims -/

/-- C7: if any name in the factor list is absent as a column of the table
passed to svd_factor_extraction or to apply_svd_factors, the call fails
with a KeyError (and an empty diagnostic log) before producing any
output; no partial result is returned. -/
theorem missing_column_key_error (sqrt : ℚ → ℚ) (np sp : SvdOracle)
    (df test : DF) (tf : List String) (w : WeightsDF) (si : ScalingDF)
    (n : ℕ) (nm nm2 : String)
    (hnm : nm ∈ tf) (hmiss : df.getCol nm = none)
    (hnm2 : nm2 ∈ tf) (hmiss2 : test.getCol nm2 = none) :
    (∃ nm', nm' ∈ tf ∧ df.getCol nm' = none ∧
      svd_factor_extraction sqrt np sp df tf n =
        ([], Except.error ("KeyError: " ++ nm'))) ∧
    (∃ nm', nm' ∈ tf ∧ test.getCol nm' = none ∧
      apply_svd_factors test tf w si n =
        Except.error ("KeyError: " ++ nm')) := by
  constructor
  · obtain ⟨nm', hmem, hnone, herr⟩ :=
      @selectCols_error_of_missing df tf ⟨nm, hnm, hmiss⟩
    exact ⟨nm', hmem, hnone, by simp [svd_factor_extraction, herr]⟩
  · obtain ⟨nm', hmem, hnone, herr⟩ :=
      @selectCols_error_of_missing test tf ⟨nm2, hnm2, hmiss2⟩
    exact ⟨nm', hmem, hnone, by simp [apply_svd_factors, herr]⟩

theorem missing_column_key_error_witness :
    (∃ nm', nm' ∈ ["f"] ∧ (DF.mk [] []).getCol nm' = none ∧
      svd_factor_extraction Rat.sqrt errOracle errOracle (DF.mk [] []) ["f"] 1 =
        ([], Except.error ("KeyError: " ++ nm'))) ∧
    (∃ nm', nm' ∈ ["f"] ∧ (DF.mk [] []).getCol nm' = none ∧
      apply_svd_factors (DF.mk [] []) ["f"] (WeightsDF.mk [] [] [])
          (ScalingDF.mk []) 1 =
        Except.error ("KeyError: " ++ nm')) :=
  missing_column_key_error Rat.sqrt errOracle errOracle (DF.mk [] [])
    (DF.mk [] []) ["f"] (WeightsDF.mk [] [] []) (ScalingDF.mk []) 1 "f" "f"
    (by decide) (by decide) (by decide) (by decide)

/-- C3: for a table with r rows, selected factor names all present, and
1 ≤ n_factors ≤ min(r, k), a successful decomposition yields a result
whose factor table is r by n_factors, whose singular-value list has
length min(r, k), whose weights table has the k factor names as row index
and n_factors columns, and whose statistics table has k rows (its two
columns, mean and std, are the two value fields of each row). -/
theorem fit_output_shapes (sqrt : ℚ → ℚ) (np sp : SvdOracle) (data : DF)
    (tf : List String) (n : ℕ) (cs : List (List Val))
    (out : SvdOut data.index.length tf.length)
    (hwf : data.WF)
    (hsel : selectCols data tf = Except.ok cs)
    (hn1 : 1 ≤ n) (hn : n ≤ min data.index.length tf.length)
    (hnp : np data.index.length tf.length (fitZ sqrt data tf cs) =
        Except.ok out) :
    ∃ res, (svd_factor_extraction sqrt np sp data tf n).2 = Except.ok res ∧
      res.factors.index.length = data.index.length ∧
      res.factors.cols.length = n ∧
      (∀ p ∈ res.factors.cols, p.2.length = data.index.length) ∧
      res.singvals.length = min data.index.length tf.length ∧
      res.weights.index = tf ∧
      res.weights.values.length = tf.length ∧
      (∀ row ∈ res.weights.values, row.length = n) ∧
      res.weights.colNames.length = n ∧
      res.scaling.rows.length = tf.length := by
  obtain ⟨res, hres⟩ := buildFitRes_ok_of data.index tf n (colsMeans cs)
    (colsStds sqrt cs) out hn rfl rfl
  refine ⟨res, ?_, ?_⟩
  · simp only [svd_factor_extraction, hsel, hnp]
    exact hres
  · obtain ⟨-, -, -, hfidx, hclen, hcols, -, hsing, hwidx, hwnames, hwvals,
      hwrows, hscal⟩ := buildFitRes_ok_parts hres
    refine ⟨by rw [hfidx], hclen, hcols, ?_, hwidx, hwvals, hwrows,
      by rw [hwnames, svdNames_length], ?_⟩
    · rw [hsing]
      simp
    · rw [hscal]
      have h1 : (colsMeans cs).length = tf.length := by
        simp [colsMeans, selectCols_ok_length hsel]
      have h2 : (colsStds sqrt cs).length = tf.length := by
        simp [colsStds, selectCols_ok_length hsel]
      simp [List.length_zip, h1, h2]

theorem fit_output_shapes_witness :
    ∃ res, (svd_factor_extraction Rat.sqrt zeroOracle zeroOracle
        (DF.mk [7] [("f", [some 1])]) ["f"] 1).2 = Except.ok res ∧
      res.factors.index.length = (DF.mk [7] [("f", [some 1])]).index.length ∧
      res.factors.cols.length = 1 ∧
      (∀ p ∈ res.factors.cols,
        p.2.length = (DF.mk [7] [("f", [some 1])]).index.length) ∧
      res.singvals.length =
        min (DF.mk [7] [("f", [some 1])]).index.length ["f"].length ∧
      res.weights.index = ["f"] ∧
      res.weights.values.length = ["f"].length ∧
      (∀ row ∈ res.weights.values, row.length = 1) ∧
      res.weights.colNames.length = 1 ∧
      res.scaling.rows.length = ["f"].length :=
  fit_output_shapes Rat.sqrt zeroOracle zeroOracle
    (DF.mk [7] [("f", [some 1])]) ["f"] 1 [[some 1]] ⟨0, fun _ => 0, 0⟩
    (by decide) (by decide) (by decide) (by decide) rfl

/-- C9: each row of the stored statistics table pairs a factor name with
a mean computed only over that column's non-missing values and a standard
deviation that is the square root of the sum of squared deviations divided
by count minus one (the sample standard deviation), undefined (missing)
when fewer than two values are present; both statistics are invariant
under discarding the missing cells of the column. -/
theorem scaling_stats_nonmissing_sample_std (sqrt : ℚ → ℚ)
    (np sp : SvdOracle) (data : DF) (tf : List String) (n : ℕ)
    (cs : List (List Val)) (res : FitRes)
    (hsel : selectCols data tf = Except.ok cs)
    (hres : (svd_factor_extraction sqrt np sp data tf n).2 = Except.ok res) :
    (∀ xs : List Val, colMean ((presentVals xs).map some) = colMean xs ∧
      colStd sqrt ((presentVals xs).map some) = colStd sqrt xs) ∧
    (∀ j, j < tf.length →
      res.scaling.rows.getD j ("", (none, none)) =
        (tf.getD j "",
         (if (presentVals (cs.getD j [])).length = 0 then none
          else some ((presentVals (cs.getD j [])).sum /
            ((presentVals (cs.getD j [])).length : ℚ)),
          if (presentVals (cs.getD j [])).length ≤ 1 then none
          else some (sqrt (sqDevSum (presentVals (cs.getD j []))
              ((presentVals (cs.getD j [])).sum /
                ((presentVals (cs.getD j [])).length : ℚ)) /
            (((presentVals (cs.getD j [])).length : ℚ) - 1)))))) := by
  constructor
  · intro xs
    have hp : presentVals ((presentVals xs).map some) = presentVals xs := by
      simp only [presentVals, List.filterMap_map]
      exact List.filterMap_some _
    constructor
    · simp only [colMean, hp]
    · simp only [colStd, colVar, hp]
  · intro j hj
    obtain ⟨out, hb⟩ := fit_ok_parts hsel hres
    obtain ⟨-, -, -, -, -, -, -, -, -, -, -, -, hscal⟩ :=
      buildFitRes_ok_parts hb
    have hlc : cs.length = tf.length := selectCols_ok_length hsel
    have h1 : (colsMeans cs).length = tf.length := by simp [colsMeans, hlc]
    have h2 : (colsStds sqrt cs).length = tf.length := by simp [colsStds, hlc]
    rw [hscal, getD_zip3 tf (colsMeans cs) (colsStds sqrt cs) j "" none none hj h1 h2]
    have hjc : j < cs.length := by omega
    have hm : (colsMeans cs).getD j none = colMean (cs.getD j []) :=
      getD_map_of_lt colMean cs j none [] hjc
    have hs : (colsStds sqrt cs).getD j none = colStd sqrt (cs.getD j []) :=
      getD_map_of_lt (colStd sqrt) cs j none [] hjc
    rw [hm, hs, colStd_eq]
    rfl

theorem scaling_stats_nonmissing_sample_std_witness :
    (∀ xs : List Val, colMean ((presentVals xs).map some) = colMean xs ∧
      colStd Rat.sqrt ((presentVals xs).map some) = colStd Rat.sqrt xs) ∧
    (∀ j, j < ["f"].length →
      (FitRes.mk (DF.mk [] []) []
          (WeightsDF.mk ["f"] [] [[]])
          (ScalingDF.mk [("f", (none, none))])).scaling.rows.getD j
            ("", (none, none)) =
        (["f"].getD j "",
         (if (presentVals ([([] : List Val)].getD j [])).length = 0 then none
          else some ((presentVals ([([] : List Val)].getD j [])).sum /
            ((presentVals ([([] : List Val)].getD j [])).length : ℚ)),
          if (presentVals ([([] : List Val)].getD j [])).length ≤ 1 then none
          else some (Rat.sqrt (sqDevSum (presentVals ([([] : List Val)].getD j []))
              ((presentVals ([([] : List Val)].getD j [])).sum /
                ((presentVals ([([] : List Val)].getD j [])).length : ℚ)) /
            (((presentVals ([([] : List Val)].getD j [])).length : ℚ) - 1)))))) :=
  scaling_stats_nonmissing_sample_std Rat.sqrt zeroOracle zeroOracle
    (DF.mk [] [("f", [])]) ["f"] 0 [([] : List Val)]
    (FitRes.mk (DF.mk [] []) []
      (WeightsDF.mk ["f"] [] [[]])
      (ScalingDF.mk [("f", (none, none))]))
    (by decide) (by decide)

theorem dfOfMatrix_ok_parts {idx : List ℤ} {names : List String} {r c : ℕ}
    {M : Matrix (Fin r) (Fin c) Val} {df : DF}
    (h : dfOfMatrix idx names M = Except.ok df) :
    names.length = c ∧ idx.length = r ∧ df.index = idx ∧
    df.cols = (List.finRange c).map
      (fun j => (names.getD j.val "", (List.finRange r).map (fun i => M i j))) := by
  simp only [dfOfMatrix] at h
  split at h
  · rename_i hc
    cases h
    exact ⟨hc.1, hc.2, rfl, rfl⟩
  · exact Except.noConfusion h

theorem selectCols_ok_cols {df : DF} {names : List String}
    {cs : List (List Val)} (h : selectCols df names = Except.ok cs) :
    ∀ c ∈ cs, ∃ nm ∈ names, df.getCol nm = some c := by
  induction names generalizing cs with
  | nil =>
    simp only [selectCols] at h
    cases h
    simp
  | cons nm rest ih =>
    simp only [selectCols] at h
    cases hc : df.getCol nm with
    | none => rw [hc] at h; cases h
    | some c0 =>
      rw [hc] at h
      cases hr : selectCols df rest with
      | error e => rw [hr] at h; cases h
      | ok cs' =>
        rw [hr] at h
        simp only [Except.map] at h
        cases h
        intro c hcmem
        rcases List.mem_cons.mp hcmem with rfl | hmem
        · exact ⟨nm, List.mem_cons_self _ _, hc⟩
        · obtain ⟨nm', h1, h2⟩ := ih hr c hmem
          exact ⟨nm', List.mem_cons_of_mem _ h1, h2⟩

theorem getCol_length {df : DF} (hwf : df.WF) {nm : String} {c : List Val}
    (h : df.getCol nm = some c) : c.length = df.index.length := by
  simp only [DF.getCol] at h
  cases hf : df.cols.find? (fun p => p.1 == nm) with
  | none => rw [hf] at h; cases h
  | some p =>
    rw [hf] at h
    cases h
    exact hwf p (List.mem_of_find?_eq_some hf)

theorem getD_zipWith_of_lt {α β γ : Type} (f : α → β → γ) (l1 : List α)
    (l2 : List β) (j : ℕ) (d : γ) (d1 : α) (d2 : β)
    (h1 : j < l1.length) (h2 : j < l2.length) :
    (List.zipWith f l1 l2).getD j d = f (l1.getD j d1) (l2.getD j d2) := by
  have hz : j < (List.zipWith f l1 l2).length := by
    simp only [List.length_zipWith]
    omega
  rw [List.getD_eq_getElem?_getD, List.getElem?_eq_getElem hz,
    List.getElem_zipWith, Option.getD_some,
    List.getD_eq_getElem?_getD, List.getElem?_eq_getElem h1,
    List.getD_eq_getElem?_getD, List.getElem?_eq_getElem h2]
  rfl

theorem getD_mem_of_lt {α : Type} (l : List α) (j : ℕ) (d : α)
    (h : j < l.length) : l.getD j d ∈ l := by
  rw [List.getD_eq_getElem?_getD, List.getElem?_eq_getElem h]
  exact List.getElem_mem h

/-- C5: on success, the factor table returned by svd_factor_extraction has
exactly the input table's row identifiers, the output of apply_svd_factors
has exactly the test table's row identifiers, and both outputs' columns are
named SVD_Factor_1 .. SVD_Factor_n in order. -/
theorem output_index_and_column_names (sqrt : ℚ → ℚ) (np sp : SvdOracle)
    (data test : DF) (tf : List String) (w : WeightsDF) (si : ScalingDF)
    (n : ℕ) (res : FitRes) (adf : DF) :
    ((svd_factor_extraction sqrt np sp data tf n).2 = Except.ok res →
      res.factors.index = data.index ∧
      res.factors.cols.map Prod.fst = svdNames n) ∧
    (apply_svd_factors test tf w si n = Except.ok adf →
      adf.index = test.index ∧ adf.cols.map Prod.fst = svdNames n) := by
  constructor
  · intro hres
    cases hsel : selectCols data tf with
    | error e => simp [svd_factor_extraction, hsel] at hres
    | ok cs =>
      obtain ⟨out, hb⟩ := fit_ok_parts hsel hres
      obtain ⟨-, -, -, hfidx, -, -, hmapfst, -, -, -, -, -, -⟩ :=
        buildFitRes_ok_parts hb
      exact ⟨hfidx, hmapfst⟩
  · intro happ
    cases hsel : selectCols test tf with
    | error e => simp [apply_svd_factors, hsel] at happ
    | ok cs =>
      simp only [apply_svd_factors, hsel] at happ
      split at happ
      · exact Except.noConfusion happ
      · obtain ⟨hn1, hn2, hidx, hcols⟩ := dfOfMatrix_ok_parts happ
        refine ⟨hidx, ?_⟩
        rw [hcols, List.map_map]
        exact getD_finRange_map _ _ _ hn1

theorem output_index_and_column_names_witness :
    ((svd_factor_extraction Rat.sqrt zeroOracle zeroOracle
        (DF.mk [] [("f", [])]) ["f"] 0).2 =
      Except.ok (FitRes.mk (DF.mk [] []) [] (WeightsDF.mk ["f"] [] [[]])
        (ScalingDF.mk [("f", (none, none))])) →
      (FitRes.mk (DF.mk [] []) [] (WeightsDF.mk ["f"] [] [[]])
        (ScalingDF.mk [("f", (none, none))])).factors.index =
          (DF.mk [] [("f", [])]).index ∧
      (FitRes.mk (DF.mk [] []) [] (WeightsDF.mk ["f"] [] [[]])
        (ScalingDF.mk [("f", (none, none))])).factors.cols.map Prod.fst =
          svdNames 0) ∧
    (apply_svd_factors (DF.mk [] [("f", [])]) ["f"]
        (WeightsDF.mk ["f"] [] [[]]) (ScalingDF.mk [("f", (none, none))]) 0 =
      Except.ok (DF.mk [] []) →
      (DF.mk [] []).index = (DF.mk [] [("f", [])]).index ∧
      (DF.mk [] []).cols.map Prod.fst = svdNames 0) :=
  output_index_and_column_names Rat.sqrt zeroOracle zeroOracle
    (DF.mk [] [("f", [])]) (DF.mk [] [("f", [])]) ["f"]
    (WeightsDF.mk ["f"] [] [[]]) (ScalingDF.mk [("f", (none, none))]) 0
    (FitRes.mk (DF.mk [] []) [] (WeightsDF.mk ["f"] [] [[]])
      (ScalingDF.mk [("f", (none, none))])) (DF.mk [] [])

/-- C2: apply_svd_factors fills each selected test column's missing cells
with the training mean looked up in scaling_info, and standardizes each
cell as (x - training_mean) / training_std with both statistics looked up
in scaling_info; the (mean, std) pairs used are a function of scaling_info
and the factor-name list alone, so no statistic is recomputed from the
test data, whose selected cells enter only as the x of the formula. -/
theorem apply_uses_training_statistics (test : DF) (tf : List String)
    (w : WeightsDF) (si : ScalingDF) (n : ℕ) (cs : List (List Val))
    (hwf : test.WF) (hsel : selectCols test tf = Except.ok cs)
    (hsi : si.rows.map Prod.fst = tf) :
    (∀ j, j < tf.length →
      (applyScalingPairs si tf).getD j (none, none) =
        lookupScaling si (tf.getD j "")) ∧
    (∀ j, j < tf.length → ∀ i, i < test.index.length →
      ((applyStandardized si tf cs).getD j []).getD i none =
        fdiv (fsub (ffill ((cs.getD j []).getD i none)
              (lookupScaling si (tf.getD j "")).1)
            (lookupScaling si (tf.getD j "")).1)
          (lookupScaling si (tf.getD j "")).2) ∧
    (apply_svd_factors test tf w si n =
      match npMatmulVal test.index.length tf.length
          (stdMatrix test.index.length tf.length (applyStandardized si tf cs))
          w.values with
      | Except.error e => Except.error e
      | Except.ok P => dfOfMatrix test.index (svdNames n) P.2) := by
  have hlen : cs.length = tf.length := selectCols_ok_length hsel
  refine ⟨?_, ?_, ?_⟩
  · intro j hj
    exact getD_map_of_lt (lookupScaling si) tf j (none, none) "" hj
  · intro j hj i hi
    have hjc : j < cs.length := by omega
    have hjp : j < (applyScalingPairs si tf).length := by
      simp [applyScalingPairs]
      omega
    have h1 : (applyScalingPairs si tf).getD j (none, none) =
        lookupScaling si (tf.getD j "") :=
      getD_map_of_lt (lookupScaling si) tf j (none, none) "" hj
    have hjf : j < (applyFilled si tf cs).length := by
      simp [applyFilled, List.length_zipWith, applyScalingPairs]
      omega
    rw [applyStandardized,
      getD_zipWith_of_lt _ (applyFilled si tf cs) (applyScalingPairs si tf) j
        [] [] (none, none) hjf hjp,
      h1, applyFilled,
      getD_zipWith_of_lt _ cs (applyScalingPairs si tf) j [] [] (none, none)
        hjc hjp,
      h1, List.map_map]
    have hcol : (cs.getD j []).length = test.index.length := by
      obtain ⟨nm, -, hg⟩ := selectCols_ok_cols hsel _ (getD_mem_of_lt cs j [] hjc)
      exact getCol_length hwf hg
    exact getD_map_of_lt _ (cs.getD j []) i none none (by omega)
  · simp only [apply_svd_factors, hsel]
    cases hmm : npMatmulVal test.index.length tf.length
        (stdMatrix test.index.length tf.length (applyStandardized si tf cs))
        w.values with
    | error e => rfl
    | ok P => rfl

/-- C10: with a rectangular weights table whose row count matches the
factor list, the projection multiplies by all columns of the weights
table: the numeric product has exactly as many columns as the weights
table, independently of n_factors; the call fails with a ValueError when
n_factors differs from that column count, and otherwise n_factors enters
only through the output column labels. -/
theorem apply_nfactors_only_labels (test : DF) (tf : List String)
    (w : WeightsDF) (si : ScalingDF) (n : ℕ) (cs : List (List Val))
    (hsel : selectCols test tf = Except.ok cs)
    (hrect : ∀ row ∈ w.values, row.length = w.colNames.length)
    (hk : w.values.length = tf.length)
    (hne : tf.length ≠ 0) :
    ∃ P : (nw : ℕ) × Matrix (Fin test.index.length) (Fin nw) Val,
      npMatmulVal test.index.length tf.length
          (stdMatrix test.index.length tf.length (applyStandardized si tf cs))
          w.values = Except.ok P ∧
      P.1 = w.colNames.length ∧
      (n ≠ w.colNames.length →
        apply_svd_factors test tf w si n =
          Except.error "ValueError: shape mismatch") ∧
      (n = w.colNames.length →
        apply_svd_factors test tf w si n =
          dfOfMatrix test.index (svdNames n) P.2) := by
  have hnw : ((w.values.head?).map List.length).getD 0 = w.colNames.length := by
    cases hv : w.values with
    | nil => rw [hv] at hk; simp at hk; omega
    | cons row0 rest =>
      simp only [List.head?, Option.map_some, Option.getD_some]
      exact hrect row0 (hv ▸ List.mem_cons_self _ _)
  have hcond : w.values.length = tf.length ∧
      (w.values.all
        (fun row => row.length = ((w.values.head?).map List.length).getD 0)) := by
    refine ⟨hk, ?_⟩
    rw [List.all_eq_true]
    intro row hrow
    rw [hnw]
    exact decide_eq_true_eq.mpr (hrect row hrow)
  have hmm : npMatmulVal test.index.length tf.length
      (stdMatrix test.index.length tf.length (applyStandardized si tf cs))
      w.values = Except.ok
        ⟨((w.values.head?).map List.length).getD 0,
         Matrix.of fun i l =>
          if (List.finRange tf.length).all
              (fun j => ((stdMatrix test.index.length tf.length
                (applyStandardized si tf cs)) i j).isSome) then
            some (∑ j : Fin tf.length,
              ((stdMatrix test.index.length tf.length
                (applyStandardized si tf cs)) i j).getD 0 *
              ((w.values.getD j.val []).getD l.val 0))
          else none⟩ := by
    simp only [npMatmulVal]
    rw [if_pos hcond]
  refine ⟨_, hmm, hnw, ?_, ?_⟩
  · intro hneq
    simp only [apply_svd_factors, hsel, hmm, dfOfMatrix]
    rw [if_neg]
    intro hcon
    rw [svdNames_length, hnw] at hcon
    exact hneq hcon.1
  · intro heqn
    simp only [apply_svd_factors, hsel, hmm]

theorem apply_uses_training_statistics_witness :
    (∀ j, j < (["f"] : List String).length →
      (applyScalingPairs (ScalingDF.mk [("f", (some 2, some 3))]) ["f"]).getD j
          (none, none) =
        lookupScaling (ScalingDF.mk [("f", (some 2, some 3))])
          ((["f"] : List String).getD j "")) ∧
    (∀ j, j < (["f"] : List String).length → ∀ i,
      i < (DF.mk [5] [("f", [none])]).index.length →
      ((applyStandardized (ScalingDF.mk [("f", (some 2, some 3))]) ["f"]
          ([[none]] : List (List Val))).getD j []).getD i none =
        fdiv (fsub (ffill ((([[none]] : List (List Val)).getD j []).getD i none)
              (lookupScaling (ScalingDF.mk [("f", (some 2, some 3))])
                ((["f"] : List String).getD j "")).1)
            (lookupScaling (ScalingDF.mk [("f", (some 2, some 3))])
              ((["f"] : List String).getD j "")).1)
          (lookupScaling (ScalingDF.mk [("f", (some 2, some 3))])
            ((["f"] : List String).getD j "")).2) :=
  ⟨(apply_uses_training_statistics (DF.mk [5] [("f", [none])]) ["f"]
      (WeightsDF.mk ["f"] ["SVD_Factor_1"] [[1]])
      (ScalingDF.mk [("f", (some 2, some 3))]) 1 ([[none]] : List (List Val))
      (by decide) (by decide) (by decide)).1,
   (apply_uses_training_statistics (DF.mk [5] [("f", [none])]) ["f"]
      (WeightsDF.mk ["f"] ["SVD_Factor_1"] [[1]])
      (ScalingDF.mk [("f", (some 2, some 3))]) 1 ([[none]] : List (List Val))
      (by decide) (by decide) (by decide)).2.1⟩

theorem apply_nfactors_only_labels_witness :
    ∃ P : (nw : ℕ) ×
        Matrix (Fin (DF.mk [5] [("f", [none])]).index.length) (Fin nw) Val,
      npMatmulVal (DF.mk [5] [("f", [none])]).index.length
          (["f"] : List String).length
          (stdMatrix (DF.mk [5] [("f", [none])]).index.length
            (["f"] : List String).length
            (applyStandardized (ScalingDF.mk [("f", (some 2, some 3))]) ["f"]
              ([[none]] : List (List Val))))
          (WeightsDF.mk ["f"] ["SVD_Factor_1"] [[1]]).values = Except.ok P ∧
      P.1 = (WeightsDF.mk ["f"] ["SVD_Factor_1"] [[1]]).colNames.length ∧
      (1 ≠ (WeightsDF.mk ["f"] ["SVD_Factor_1"] [[1]]).colNames.length →
        apply_svd_factors (DF.mk [5] [("f", [none])]) ["f"]
            (WeightsDF.mk ["f"] ["SVD_Factor_1"] [[1]])
            (ScalingDF.mk [("f", (some 2, some 3))]) 1 =
          Except.error "ValueError: shape mismatch") ∧
      (1 = (WeightsDF.mk ["f"] ["SVD_Factor_1"] [[1]]).colNames.length →
        apply_svd_factors (DF.mk [5] [("f", [none])]) ["f"]
            (WeightsDF.mk ["f"] ["SVD_Factor_1"] [[1]])
            (ScalingDF.mk [("f", (some 2, some 3))]) 1 =
          dfOfMatrix (DF.mk [5] [("f", [none])]).index (svdNames 1) P.2) :=
  apply_nfactors_only_labels (DF.mk [5] [("f", [none])]) ["f"]
    (WeightsDF.mk ["f"] ["SVD_Factor_1"] [[1]])
    (ScalingDF.mk [("f", (some 2, some 3))]) 1 ([[none]] : List (List Val))
    (by decide) (by decide) (by decide) (by decide)

/-- C4: when the primary decomposition routine succeeds, its result is
used, nothing is logged, and the fallback routine is never consulted
(the result is the same for every fallback routine); when it fails, the
diagnostic message is logged and the fallback routine is called exactly
once, its success producing the normal output and its failure propagating
as the final error. -/
theorem svd_fallback_once (sqrt : ℚ → ℚ) (np sp : SvdOracle) (data : DF)
    (tf : List String) (n : ℕ) (cs : List (List Val))
    (hsel : selectCols data tf = Except.ok cs) :
    (∀ out, np data.index.length tf.length (fitZ sqrt data tf cs) =
        Except.ok out →
      ∀ sp' : SvdOracle,
        svd_factor_extraction sqrt np sp' data tf n =
          ([], buildFitRes data.index tf n (colsMeans cs)
            (colsStds sqrt cs) out)) ∧
    (∀ e out, np data.index.length tf.length (fitZ sqrt data tf cs) =
        Except.error e →
      sp data.index.length tf.length (fitZ sqrt data tf cs) =
        Except.ok out →
      svd_factor_extraction sqrt np sp data tf n =
        (["SVD calculation error: " ++ e],
         buildFitRes data.index tf n (colsMeans cs)
           (colsStds sqrt cs) out)) ∧
    (∀ e e2, np data.index.length tf.length (fitZ sqrt data tf cs) =
        Except.error e →
      sp data.index.length tf.length (fitZ sqrt data tf cs) =
        Except.error e2 →
      svd_factor_extraction sqrt np sp data tf n =
        (["SVD calculation error: " ++ e], Except.error e2)) := by
  refine ⟨?_, ?_, ?_⟩
  · intro out hnp sp'
    simp [svd_factor_extraction, hsel, hnp]
  · intro e out hnp hsp
    simp [svd_factor_extraction, hsel, hnp, hsp]
  · intro e e2 hnp hsp
    simp [svd_factor_extraction, hsel, hnp, hsp]

theorem svd_fallback_once_witness :
    svd_factor_extraction Rat.sqrt errOracle zeroOracle
        (DF.mk [] [("f", [])]) ["f"] 0 =
      (["SVD calculation error: " ++ "LinAlgError"],
       @buildFitRes 0 1 (DF.mk [] [("f", [])]).index ["f"] 0
         (colsMeans [([] : List Val)]) (colsStds Rat.sqrt [([] : List Val)])
         ⟨0, fun _ => 0, 0⟩) :=
  (svd_fallback_once Rat.sqrt errOracle zeroOracle (DF.mk [] [("f", [])])
      ["f"] 0 [([] : List Val)] (by decide)).2.1 "LinAlgError"
    ⟨0, fun _ => 0, 0⟩ rfl rfl

theorem getD_zip2 {α β : Type} (l1 : List α) (l2 : List β) (j : ℕ)
    (d1 : α) (d2 : β) (h1 : j < l1.length) (h2 : j < l2.length) :
    (l1.zip l2).getD j (d1, d2) = (l1.getD j d1, l2.getD j d2) := by
  have hz : j < (l1.zip l2).length := by
    simp only [List.length_zip]
    omega
  rw [List.getD_eq_getElem?_getD, List.getElem?_eq_getElem hz]
  simp only [List.getElem_zip, Option.getD_some]
  rw [List.getD_eq_getElem?_getD, List.getElem?_eq_getElem h1,
    List.getD_eq_getElem?_getD, List.getElem?_eq_getElem h2]
  rfl

theorem colsFilled_getD (cs : List (List Val)) (j : ℕ) (hj : j < cs.length) :
    (colsFilled cs).getD j [] =
      (cs.getD j []).map (fun x => ffill x ((colsMeans cs).getD j none)) := by
  have hm : j < (colsMeans cs).length := by simp [colsMeans]; omega
  rw [colsFilled, getD_zipWith_of_lt _ cs (colsMeans cs) j [] [] none hj hm]

theorem colsStandardized_getD (sqrt : ℚ → ℚ) (cs : List (List Val)) (j : ℕ)
    (hj : j < cs.length) :
    (colsStandardized sqrt cs).getD j [] =
      ((colsFilled cs).getD j []).map
        (fun x => fdiv (fsub x ((colsMeans cs).getD j none))
          ((colsStds sqrt cs).getD j none)) := by
  have hf : j < (colsFilled cs).length := by
    simp [colsFilled, List.length_zipWith, colsMeans]
    omega
  have hm : j < (colsMeans cs).length := by simp [colsMeans]; omega
  have hs : j < (colsStds sqrt cs).length := by simp [colsStds]; omega
  have hzz : j < ((colsMeans cs).zip (colsStds sqrt cs)).length := by
    simp [List.length_zip]
    omega
  rw [colsStandardized,
    getD_zipWith_of_lt _ (colsFilled cs) ((colsMeans cs).zip (colsStds sqrt cs))
      j [] [] (none, none) hf hzz,
    getD_zip2 (colsMeans cs) (colsStds sqrt cs) j none none hm hs]

theorem colMean_isSome_of_present {c : List Val} (h : ∃ x ∈ c, x ≠ none) :
    colMean c ≠ none := by
  obtain ⟨x, hx, hxn⟩ := h
  obtain ⟨q, rfl⟩ := Option.ne_none_iff_exists'.mp hxn
  have hq : q ∈ presentVals c := by
    simp only [presentVals, List.mem_filterMap]
    exact ⟨some q, hx, rfl⟩
  have : (presentVals c).length ≠ 0 := by
    intro h0
    rw [List.length_eq_zero] at h0
    rw [h0] at hq
    cases hq
  simp only [colMean]
  rw [if_neg this]
  exact Option.some_ne_none _

/-- C6 counterexample: for a table whose selected column is entirely
missing, the matrix produced by the mean-imputation step of
svd_factor_extraction still contains missing entries (the column mean of
an all-missing column is itself missing, so fillna leaves the column
missing), refuting the claim that it never does. -/
theorem imputation_no_missing_counterexample :
    (DF.mk [10, 20] [("a", [none, none])]).WF ∧
    selectCols (DF.mk [10, 20] [("a", [none, none])]) ["a"] =
      Except.ok [[none, none]] ∧
    ¬ (∀ j, j < ([[none, none]] : List (List Val)).length →
        ∀ x ∈ (colsFilled [[none, none]]).getD j [], x ≠ none) := by
  refine ⟨by decide, by decide, ?_⟩
  intro h
  exact h 0 (by decide) none (by decide) rfl

/-- C6 (amended): after the mean-imputation step the matrix contains no
missing entries provided every selected column has at least one
non-missing value; and provided every selected column's training std is
defined and nonzero, the matrix fed to the decomposition has no missing
entries and every imputed cell equal to its column's training mean
standardizes to exactly zero (in particular a fully-missing row, imputed
to the means, standardizes to a zero row). -/
theorem imputation_fills_and_zero_rows (sqrt : ℚ → ℚ) (data : DF)
    (tf : List String) (cs : List (List Val))
    (hsel : selectCols data tf = Except.ok cs) :
    ((∀ c ∈ cs, ∃ x ∈ c, x ≠ none) →
      ∀ j, j < cs.length → ∀ x ∈ (colsFilled cs).getD j [], x ≠ none) ∧
    ((∀ j, j < cs.length →
        (colsStds sqrt cs).getD j none ≠ none ∧
        (colsStds sqrt cs).getD j none ≠ some 0) →
      (∀ j, j < cs.length →
        ∀ x ∈ (colsStandardized sqrt cs).getD j [], x ≠ none) ∧
      (∀ j, j < cs.length → ∀ i, i < (cs.getD j []).length →
        ((colsFilled cs).getD j []).getD i none = (colsMeans cs).getD j none →
        ((colsStandardized sqrt cs).getD j []).getD i none = some 0)) := by
  have hmean : ∀ j, j < cs.length →
      (colsStds sqrt cs).getD j none ≠ none → ∃ q, (colsMeans cs).getD j none = some q := by
    intro j hj hstd
    rw [show colsStds sqrt cs = cs.map (colStd sqrt) from rfl,
      getD_map_of_lt (colStd sqrt) cs j none [] hj] at hstd
    rw [show colsMeans cs = cs.map colMean from rfl,
      getD_map_of_lt colMean cs j none [] hj]
    simp only [colStd, colVar, colMean] at hstd ⊢
    by_cases hl : (presentVals (cs.getD j [])).length ≤ 1
    · rw [if_pos hl] at hstd
      simp at hstd
    · rw [if_neg (by omega : ¬ (presentVals (cs.getD j [])).length = 0)]
      exact ⟨_, rfl⟩
  constructor
  · intro hpres j hj x hx
    rw [colsFilled_getD cs j hj] at hx
    obtain ⟨y, hy, rfl⟩ := List.mem_map.mp hx
    cases y with
    | some a => simp [ffill]
    | none =>
      simp only [ffill]
      rw [show colsMeans cs = cs.map colMean from rfl,
        getD_map_of_lt colMean cs j none [] hj]
      exact colMean_isSome_of_present (hpres _ (getD_mem_of_lt cs j [] hj))
  · intro hstds
    have hsome : ∀ j, j < cs.length → ∃ σ, σ ≠ 0 ∧
        (colsStds sqrt cs).getD j none = some σ := by
      intro j hj
      obtain ⟨h1, h2⟩ := hstds j hj
      obtain ⟨σ, hσ⟩ := Option.ne_none_iff_exists'.mp h1
      exact ⟨σ, by rintro rfl; exact h2 hσ, hσ⟩
    constructor
    · intro j hj x hx
      obtain ⟨σ, hσ0, hσ⟩ := hsome j hj
      obtain ⟨μ, hμ⟩ := hmean j hj (hstds j hj).1
      rw [colsStandardized_getD sqrt cs j hj] at hx
      obtain ⟨y, hy, rfl⟩ := List.mem_map.mp hx
      rw [colsFilled_getD cs j hj] at hy
      obtain ⟨z, hz, rfl⟩ := List.mem_map.mp hy
      rw [hσ, hμ]
      cases z with
      | some a => simp [ffill, fsub, fdiv, hσ0]
      | none => simp [ffill, fsub, fdiv, hσ0, hμ]
    · intro j hj i hi hcell
      obtain ⟨σ, hσ0, hσ⟩ := hsome j hj
      obtain ⟨μ, hμ⟩ := hmean j hj (hstds j hj).1
      have hflen : i < ((colsFilled cs).getD j []).length := by
        rw [colsFilled_getD cs j hj, List.length_map]
        exact hi
      rw [colsStandardized_getD sqrt cs j hj,
        getD_map_of_lt _ ((colsFilled cs).getD j []) i none none hflen,
        hcell, hμ, hσ]
      simp [fsub, fdiv, hσ0]

theorem imputation_fills_and_zero_rows_witness :
    ((∀ c ∈ ([[some 1, some 1, some 3, some 5, some 5]] : List (List Val)),
        ∃ x ∈ c, x ≠ none) →
      ∀ j, j < ([[some 1, some 1, some 3, some 5, some 5]] : List (List Val)).length →
      ∀ x ∈ (colsFilled [[some 1, some 1, some 3, some 5, some 5]]).getD j [],
        x ≠ none) ∧
    ((∀ j, j < ([[some 1, some 1, some 3, some 5, some 5]] : List (List Val)).length →
        (colsStds Rat.sqrt [[some 1, some 1, some 3, some 5, some 5]]).getD j none ≠ none ∧
        (colsStds Rat.sqrt [[some 1, some 1, some 3, some 5, some 5]]).getD j none ≠ some 0) →
      (∀ j, j < ([[some 1, some 1, some 3, some 5, some 5]] : List (List Val)).length →
        ∀ x ∈ (colsStandardized Rat.sqrt [[some 1, some 1, some 3, some 5, some 5]]).getD j [],
          x ≠ none) ∧
      (∀ j, j < ([[some 1, some 1, some 3, some 5, some 5]] : List (List Val)).length →
        ∀ i, i < (([[some 1, some 1, some 3, some 5, some 5]] : List (List Val)).getD j []).length →
        ((colsFilled [[some 1, some 1, some 3, some 5, some 5]]).getD j []).getD i none =
          (colsMeans [[some 1, some 1, some 3, some 5, some 5]]).getD j none →
        ((colsStandardized Rat.sqrt [[some 1, some 1, some 3, some 5, some 5]]).getD j []).getD i none =
          some 0)) :=
  imputation_fills_and_zero_rows Rat.sqrt
    (DF.mk [0, 1, 2, 3, 4] [("f", [some 1, some 1, some 3, some 5, some 5])])
    ["f"] [[some 1, some 1, some 3, some 5, some 5]] (by decide)

/-! ## A store model of the Python object heap, for the frame claim

Each pandas/numpy operation used by the two functions returns a fresh
object (none of them is called with inplace semantics); the only
attribute assignment in the module is the index assignment on the freshly
constructed factor frame.  The store model mirrors the statements of the
source: every local binding allocates a new object at the end of the
store, and the index assignment is modelled by a set at the (fresh)
position of that frame. -/

inductive PyObj where
  | df : DF → PyObj
  | strs : List String → PyObj
  | series : List Val → PyObj
  | arr2 : List (List Val) → PyObj
  | arr1 : List ℚ → PyObj
  | wdf : WeightsDF → PyObj
  | sdf : ScalingDF → PyObj
deriving DecidableEq

abbrev Store := List PyObj

/-- A numpy 2-d array as a row-major list of lists. -/
def matToLists {r c : ℕ} (M : Matrix (Fin r) (Fin c) ℚ) : List (List Val) :=
  (List.finRange r).map (fun i => (List.finRange c).map (fun j => some (M i j)))

/-- The tail of the store version of svd_factor_extraction, from the
point where a decomposition is available: allocate the U, S, Vt arrays,
the selected-factors array, the factor frame (built with the default
RangeIndex and then mutated in place by the index assignment of the
source), the weights frame and the scaling frame. -/
def fitStoreTail {r k : ℕ} (σ5 : Store) (log : List String) (idx : List ℤ)
    (tf : List String) (n : ℕ) (means stds : List Val) (out : SvdOut r k) :
    Store × List String × Except String (ℕ × ℕ × ℕ × ℕ) :=
  let σ6 := σ5 ++ [PyObj.arr2 (matToLists out.U),
                   PyObj.arr1 ((List.finRange (min r k)).map out.S),
                   PyObj.arr2 (matToLists out.Vt)]
  match buildFitRes idx tf n means stds out with
  | Except.error e => (σ6, log, Except.error e)
  | Except.ok res =>
    let σ7 := σ6 ++ [PyObj.arr2 (res.factors.cols.map Prod.snd)]
    let σ8 := σ7 ++ [PyObj.df (DF.mk ((List.range idx.length).map Int.ofNat)
      res.factors.cols)]
    let σ9 := σ8.set σ7.length (PyObj.df res.factors)
    let σ10 := σ9 ++ [PyObj.wdf res.weights, PyObj.sdf res.scaling]
    (σ10, log, Except.ok (σ7.length, σ5.length + 1, σ9.length, σ9.length + 1))

/-- Store version of svd_factor_extraction: reads the data frame and
factor list by reference from the store and allocates every intermediate
object, mirroring the source statement by statement.  Returns the final
store, the printed diagnostics, and the ids of the four results (or the
propagated exception). -/
def fitStore (sqrt : ℚ → ℚ) (npSvd spSvd : SvdOracle) (σ : Store)
    (dataId factorsId : ℕ) (n : ℕ) :
    Store × List String × Except String (ℕ × ℕ × ℕ × ℕ) :=
  match σ[dataId]?, σ[factorsId]? with
  | some (PyObj.df data), some (PyObj.strs tf) =>
    match selectCols data tf with
    | Except.error e => (σ, [], Except.error e)
    | Except.ok cs =>
      let σ1 := σ ++ [PyObj.df (DF.mk data.index (tf.zip cs))]
      let σ2 := σ1 ++ [PyObj.series (colsMeans cs)]
      let σ3 := σ2 ++ [PyObj.series (colsStds sqrt cs)]
      let σ4 := σ3 ++ [PyObj.df (DF.mk data.index (tf.zip (colsFilled cs)))]
      let σ5 := σ4 ++ [PyObj.df (DF.mk data.index
        (tf.zip (colsStandardized sqrt cs)))]
      match npSvd data.index.length tf.length (fitZ sqrt data tf cs) with
      | Except.ok out =>
        fitStoreTail σ5 [] data.index tf n (colsMeans cs) (colsStds sqrt cs) out
      | Except.error e =>
        match spSvd data.index.length tf.length (fitZ sqrt data tf cs) with
        | Except.ok out =>
          fitStoreTail σ5 ["SVD calculation error: " ++ e] data.index tf n
            (colsMeans cs) (colsStds sqrt cs) out
        | Except.error e2 =>
          (σ5, ["SVD calculation error: " ++ e], Except.error e2)
  | _, _ => (σ, [], Except.error "TypeError")

/-- Store version of apply_svd_factors, mirroring the source statement by
statement; apply performs no attribute assignment at all, only fresh
allocations. -/
def applyStore (σ : Store) (testId factorsId weightsId scalingId : ℕ)
    (n : ℕ) : Store × Except String ℕ :=
  match σ[testId]?, σ[factorsId]?, σ[weightsId]?, σ[scalingId]? with
  | some (PyObj.df test), some (PyObj.strs tf), some (PyObj.wdf w),
      some (PyObj.sdf si) =>
    match selectCols test tf with
    | Except.error e => (σ, Except.error e)
    | Except.ok cs =>
      let σ1 := σ ++ [PyObj.df (DF.mk test.index (tf.zip cs))]
      let σ2 := σ1 ++ [PyObj.series (si.rows.map (fun p => p.2.1)),
                       PyObj.series (si.rows.map (fun p => p.2.2))]
      let σ3 := σ2 ++ [PyObj.df (DF.mk test.index
        (tf.zip (applyFilled si tf cs)))]
      let σ4 := σ3 ++ [PyObj.df (DF.mk test.index
        (tf.zip (applyStandardized si tf cs)))]
      match npMatmulVal test.index.length tf.length
          (stdMatrix test.index.length tf.length (applyStandardized si tf cs))
          w.values with
      | Except.error e => (σ4, Except.error e)
      | Except.ok P =>
        let σ5 := σ4 ++ [PyObj.arr2 ((List.finRange test.index.length).map
          (fun i => (List.finRange P.1).map (fun l => P.2 i l)))]
        match dfOfMatrix test.index (svdNames n) P.2 with
        | Except.error e => (σ5, Except.error e)
        | Except.ok adf => (σ5 ++ [PyObj.df adf], Except.ok σ5.length)
  | _, _, _, _ => (σ, Except.error "TypeError")

theorem getElem?_append_of_lt {σ l : Store} {i : ℕ} (h : i < σ.length) :
    (σ ++ l)[i]? = σ[i]? := by
  rw [List.getElem?_append, if_pos h]

/-- The heap after a sequence of fresh allocations and of writes to fresh
positions extends the initial heap. -/
inductive Ext : Store → Store → Prop where
  | refl (σ : Store) : Ext σ σ
  | app (σ τ l : Store) : Ext σ τ → Ext σ (τ ++ l)
  | set (σ τ : Store) (j : ℕ) (o : PyObj) :
      Ext σ τ → σ.length ≤ j → Ext σ (τ.set j o)

theorem Ext.length_le {σ τ : Store} (h : Ext σ τ) : σ.length ≤ τ.length := by
  induction h with
  | refl => exact le_refl _
  | app τ' l h ih => simp only [List.length_append]; omega
  | set τ' j o h hj ih => simp only [List.length_set]; omega

theorem Ext.get?_eq {σ τ : Store} (h : Ext σ τ) (i : ℕ) (hi : i < σ.length) :
    τ[i]? = σ[i]? := by
  induction h with
  | refl => rfl
  | app τ' l h ih =>
    have hlen := h.length_le
    rw [List.getElem?_append, if_pos (by omega), ih]
  | set τ' j o h hj ih =>
    rw [List.getElem?_set_ne (by omega), ih]

theorem Ext.trans {σ τ ρ : Store} (h1 : Ext σ τ) (h2 : Ext τ ρ) : Ext σ ρ := by
  induction h2 with
  | refl => exact h1
  | app τ2 l h ih => exact Ext.app _ _ l ih
  | set τ2 j o h hj ih => exact Ext.set _ _ j o ih (le_trans h1.length_le hj)

theorem fitStoreTail_ext {r k : ℕ} (σ5 : Store) (log : List String)
    (idx : List ℤ) (tf : List String) (n : ℕ) (means stds : List Val)
    (out : SvdOut r k) :
    Ext σ5 (fitStoreTail σ5 log idx tf n means stds out).1 := by
  simp only [fitStoreTail]
  split
  · repeat first | exact Ext.refl _ | apply Ext.app
  · refine Ext.app _ _ _ (Ext.set _ _ _ _ ?_ ?_)
    · repeat first | exact Ext.refl _ | apply Ext.app
    · simp only [List.length_append]
      omega

theorem fitStore_ext (sqrt : ℚ → ℚ) (np sp : SvdOracle) (σ : Store)
    (dataId factorsId : ℕ) (n : ℕ) :
    Ext σ (fitStore sqrt np sp σ dataId factorsId n).1 := by
  simp only [fitStore]
  split
  · split
    · exact Ext.refl _
    · split
      · refine Ext.trans ?_ (fitStoreTail_ext _ _ _ _ _ _ _ _)
        repeat first | exact Ext.refl _ | apply Ext.app
      · split
        · refine Ext.trans ?_ (fitStoreTail_ext _ _ _ _ _ _ _ _)
          repeat first | exact Ext.refl _ | apply Ext.app
        · repeat first | exact Ext.refl _ | apply Ext.app
  · exact Ext.refl _

theorem applyStore_ext (σ : Store) (testId factorsId weightsId scalingId : ℕ)
    (n : ℕ) :
    Ext σ (applyStore σ testId factorsId weightsId scalingId n).1 := by
  simp only [applyStore]
  split
  · split
    · exact Ext.refl _
    · split
      · repeat first | exact Ext.refl _ | apply Ext.app
      · split
        · repeat first | exact Ext.refl _ | apply Ext.app
        · repeat first | exact Ext.refl _ | apply Ext.app
  · exact Ext.refl _

/-- C8: neither function mutates any object that existed in the store
before the call: every pre-existing store position is unchanged by
fitStore and by applyStore (in particular the data/test frame, the
factor-name list, the weights frame and the scaling frame passed in by
reference).  The one in-place operation of the source, the index
assignment on the factor frame, targets the freshly allocated frame. -/
theorem no_input_mutation (sqrt : ℚ → ℚ) (np sp : SvdOracle) (σ : Store)
    (dataId factorsId testId weightsId scalingId : ℕ) (nf na : ℕ) :
    (∀ i, i < σ.length →
      (fitStore sqrt np sp σ dataId factorsId nf).1[i]? = σ[i]?) ∧
    (∀ i, i < σ.length →
      (applyStore σ testId factorsId weightsId scalingId na).1[i]? = σ[i]?) :=
  ⟨fun i hi => (fitStore_ext sqrt np sp σ dataId factorsId nf).get?_eq i hi,
   fun i hi =>
    (applyStore_ext σ testId factorsId weightsId scalingId na).get?_eq i hi⟩

theorem no_input_mutation_witness :
    (∀ i, i < ([PyObj.df (DF.mk [] [("f", [])]), PyObj.strs ["f"]] : Store).length →
      (fitStore Rat.sqrt zeroOracle zeroOracle
        [PyObj.df (DF.mk [] [("f", [])]), PyObj.strs ["f"]] 0 1 0).1[i]? =
      ([PyObj.df (DF.mk [] [("f", [])]), PyObj.strs ["f"]] : Store)[i]?) ∧
    (∀ i, i < ([PyObj.df (DF.mk [] [("f", [])]), PyObj.strs ["f"]] : Store).length →
      (applyStore [PyObj.df (DF.mk [] [("f", [])]), PyObj.strs ["f"]]
        0 1 0 1 0).1[i]? =
      ([PyObj.df (DF.mk [] [("f", [])]), PyObj.strs ["f"]] : Store)[i]?) :=
  no_input_mutation Rat.sqrt zeroOracle zeroOracle
    [PyObj.df (DF.mk [] [("f", [])]), PyObj.strs ["f"]] 0 1 0 0 1 0 0

/-! ## The relation between fit's and apply's outputs on the training data -/

/-- The properties numpy.linalg.svd guarantees of a successful thin
decomposition: exact recomposition, orthonormal columns of U, orthonormal
rows of Vt, and a descending non-negative singular-value sequence. -/
def IsNumpySVD {r k : ℕ} (Z : Matrix (Fin r) (Fin k) Val)
    (out : SvdOut r k) : Prop :=
  (∀ i j, Z i j = some ((out.U * Matrix.diagonal out.S * out.Vt) i j)) ∧
  out.U.transpose * out.U = 1 ∧
  out.Vt * out.Vt.transpose = 1 ∧
  (∀ a b : Fin (min r k), a ≤ b → out.S b ≤ out.S a) ∧
  (∀ a, 0 ≤ out.S a)

/-- The key algebraic fact: projecting the standardized training matrix
Z = U diag(S) Vt onto the first n' right singular vectors gives exactly
U[:, :n'] diag(S[:n']) — the same matrix fit computes — because the
standardized data already carry the singular values. -/
theorem project_training_eq {r k n' : ℕ} (hn : n' ≤ min r k)
    (U : Matrix (Fin r) (Fin (min r k)) ℚ) (S : Fin (min r k) → ℚ)
    (Vt : Matrix (Fin (min r k)) (Fin k) ℚ)
    (hV : Vt * Vt.transpose = 1) :
    (U * Matrix.diagonal S * Vt) * (Vt.submatrix (Fin.castLE hn) id).transpose =
      (U.submatrix id (Fin.castLE hn)) *
        Matrix.diagonal (fun j => S (Fin.castLE hn j)) := by
  have hE : Vt * (Vt.submatrix (Fin.castLE hn) id).transpose =
      Matrix.of (fun a (b : Fin n') =>
        if a = Fin.castLE hn b then (1 : ℚ) else 0) := by
    ext a b
    have h1 : (Vt * (Vt.submatrix (Fin.castLE hn) id).transpose) a b =
        (Vt * Vt.transpose) a (Fin.castLE hn b) := by
      simp [Matrix.mul_apply, Matrix.transpose_apply, Matrix.submatrix_apply]
    rw [h1, hV]
    simp [Matrix.one_apply]
  rw [Matrix.mul_assoc, hE]
  ext i b
  rw [Matrix.mul_apply, Matrix.mul_diagonal]
  simp only [Matrix.of_apply, mul_ite, mul_one, mul_zero]
  rw [Finset.sum_ite_eq' Finset.univ (Fin.castLE hn b)
    (fun a => (U * Matrix.diagonal S) i a)]
  simp [Matrix.mul_diagonal, Matrix.submatrix_apply]

theorem selectCols_ok_get {df : DF} {names : List String}
    {cs : List (List Val)} (h : selectCols df names = Except.ok cs) :
    ∀ j, j < names.length →
      df.getCol (names.getD j "") = some (cs.getD j []) := by
  induction names generalizing cs with
  | nil => intro j hj; simp at hj
  | cons nm rest ih =>
    simp only [selectCols] at h
    cases hc : df.getCol nm with
    | none => rw [hc] at h; cases h
    | some c0 =>
      rw [hc] at h
      cases hr : selectCols df rest with
      | error e => rw [hr] at h; cases h
      | ok cs' =>
        rw [hr] at h
        simp only [Except.map] at h
        cases h
        intro j hj
        cases j with
        | zero => simpa using hc
        | succ j' =>
          simpa using ih hr j' (by simpa using hj)

/-- Looking a factor name up in the scaling table produced by fit returns
that factor's own training statistics, also when the factor list contains
duplicate names (duplicated names select the same column and hence carry
the same statistics). -/
theorem lookupScaling_fit {df : DF} {tf : List String}
    {cs : List (List Val)} (sqrt : ℚ → ℚ)
    (hsel : selectCols df tf = Except.ok cs) :
    ∀ j, j < tf.length →
      lookupScaling
        (ScalingDF.mk (tf.zip ((colsMeans cs).zip (colsStds sqrt cs))))
        (tf.getD j "") =
      ((colsMeans cs).getD j none, (colsStds sqrt cs).getD j none) := by
  induction tf generalizing cs with
  | nil => intro j hj; simp at hj
  | cons nm rest ih =>
    simp only [selectCols] at hsel
    cases hc : df.getCol nm with
    | none => rw [hc] at hsel; cases hsel
    | some c0 =>
      rw [hc] at hsel
      cases hr : selectCols df rest with
      | error e => rw [hr] at hsel; cases hsel
      | ok cs' =>
        rw [hr] at hsel
        simp only [Except.map] at hsel
        cases hsel
        intro j hj
        cases j with
        | zero =>
          simp [lookupScaling, colsMeans, colsStds, List.find?]
        | succ j' =>
          have hj' : j' < rest.length := by simpa using hj
          by_cases hbeq : nm = rest.getD j' ""
          · simp only [lookupScaling, colsMeans, colsStds, List.map_cons,
              List.zip_cons_cons, List.getD_cons_succ, List.find?]
            have hb : (nm == rest.getD j' "") = true := by
              simp only [beq_iff_eq]
              exact hbeq
            rw [hb]
            have h0 : df.getCol (rest.getD j' "") = some (cs'.getD j' []) :=
              selectCols_ok_get hr j' hj'
            rw [← hbeq, hc] at h0
            cases h0
            have hjc : j' < cs'.length := by
              rw [selectCols_ok_length hr]
              exact hj'
            rw [getD_map_of_lt colMean cs' j' none [] hjc,
              getD_map_of_lt (colStd sqrt) cs' j' none [] hjc]
          · have hrec := ih hr j' hj'
            simp only [lookupScaling, colsMeans, colsStds, List.map_cons,
              List.zip, List.zip_cons_cons, List.getD_cons_succ,
              List.find?] at hrec ⊢
            have hb : (nm == rest.getD j' "") = false := by
              simp only [beq_eq_false_iff_ne, ne_eq]
              exact hbeq
            rw [hb]
            exact hrec

theorem getD_map_finRange_nat {α : Type} (c : ℕ) (g : Fin c → α) (a : ℕ)
    (d : α) (ha : a < c) :
    ((List.finRange c).map g).getD a d = g ⟨a, ha⟩ := by
  rw [List.getD_eq_getElem?_getD, List.getElem?_map,
    List.getElem?_eq_getElem (by simpa using ha)]
  simp [List.getElem_finRange, Fin.cast]

theorem getElem_eq_getD {α : Type} (l : List α) (j : ℕ) (d : α)
    (h : j < l.length) : l[j] = l.getD j d := by
  rw [List.getD_eq_getElem?_getD, List.getElem?_eq_getElem h]
  rfl

/-- On the training frame, apply's standardized columns (computed from
fit's scaling table) coincide with fit's standardized columns. -/
theorem applyStandardized_fit_eq (sqrt : ℚ → ℚ) {df : DF}
    {tf : List String} {cs : List (List Val)}
    (hsel : selectCols df tf = Except.ok cs) :
    applyStandardized
      (ScalingDF.mk (tf.zip ((colsMeans cs).zip (colsStds sqrt cs)))) tf cs =
      colsStandardized sqrt cs := by
  have hlen : cs.length = tf.length := selectCols_ok_length hsel
  have hlm : (colsMeans cs).length = cs.length := by simp [colsMeans]
  have hls : (colsStds sqrt cs).length = cs.length := by simp [colsStds]
  have hlp : (applyScalingPairs
      (ScalingDF.mk (tf.zip ((colsMeans cs).zip (colsStds sqrt cs)))) tf).length
      = tf.length := by simp [applyScalingPairs]
  have hlF : (applyFilled
      (ScalingDF.mk (tf.zip ((colsMeans cs).zip (colsStds sqrt cs)))) tf cs).length
      = cs.length := by
    simp [applyFilled, List.length_zipWith, hlp, hlen]
  have hl1 : (applyStandardized
      (ScalingDF.mk (tf.zip ((colsMeans cs).zip (colsStds sqrt cs)))) tf cs).length
      = cs.length := by
    simp [applyStandardized, List.length_zipWith, hlF, hlp, hlen]
  have hl2 : (colsStandardized sqrt cs).length = cs.length := by
    simp [colsStandardized, colsFilled, List.length_zipWith, List.length_zip,
      hlm, hls]
  apply List.ext_getElem
  · rw [hl1, hl2]
  · intro j h1 h2
    have hjc : j < cs.length := by omega
    have hjt : j < tf.length := by omega
    rw [getElem_eq_getD _ j [], getElem_eq_getD _ j []]
    have hpair : (applyScalingPairs
        (ScalingDF.mk (tf.zip ((colsMeans cs).zip (colsStds sqrt cs)))) tf).getD
          j (none, none) =
        ((colsMeans cs).getD j none, (colsStds sqrt cs).getD j none) := by
      rw [show applyScalingPairs
          (ScalingDF.mk (tf.zip ((colsMeans cs).zip (colsStds sqrt cs)))) tf =
          tf.map (lookupScaling
            (ScalingDF.mk (tf.zip ((colsMeans cs).zip (colsStds sqrt cs)))))
          from rfl,
        getD_map_of_lt _ tf j (none, none) "" hjt]
      exact lookupScaling_fit sqrt hsel j hjt
    rw [applyStandardized,
      getD_zipWith_of_lt _ _ _ j [] [] (none, none) (by omega) (by omega),
      hpair, applyFilled,
      getD_zipWith_of_lt _ _ _ j [] [] (none, none) hjc (by omega),
      hpair, List.map_map,
      colsStandardized_getD sqrt cs j hjc, colsFilled_getD cs j hjc,
      List.map_map]

/-- Inversion of a successful construction of the fit outputs: the value
content of the factor and weights tables. -/
theorem buildFitRes_ok_content {r k : ℕ} {idx : List ℤ} {tf : List String}
    {n : ℕ} {means stds : List Val} {out : SvdOut r k} {res : FitRes}
    (h : buildFitRes idx tf n means stds out = Except.ok res) :
    res.factors.cols = (List.finRange (min n (min r k))).map
      (fun j => ((svdNames n).getD j.val "",
        (List.finRange r).map (fun i =>
          some ((out.U.submatrix id
              (Fin.castLE (Nat.min_le_right n (min r k))) *
            Matrix.diagonal (fun j2 =>
              out.S (Fin.castLE (Nat.min_le_right n (min r k)) j2))) i j)))) ∧
    res.weights.values = (List.finRange k).map
      (fun f => (List.finRange (min n (min r k))).map
        (fun j => (out.Vt.submatrix
          (Fin.castLE (Nat.min_le_right n (min r k))) id).transpose f j)) := by
  simp only [buildFitRes] at h
  split at h
  · exact Except.noConfusion h
  · split at h
    · exact Except.noConfusion h
    · rename_i x1 fdfv heq x2 wtsv heq2
      cases h
      simp only [dfOfMatrixQ, dfOfMatrix] at heq
      split at heq
      · cases heq
        simp only [wdfOfMatrix] at heq2
        split at heq2
        · cases heq2
          exact ⟨rfl, rfl⟩
        · exact Except.noConfusion heq2
      · exact Except.noConfusion heq

/-- Core lemma: applying apply on an exact copy of the training data,
with the weights and statistics returned by fit, reproduces fit's factor
columns exactly (no rescaling): the standardized training matrix already
carries the singular values, so Z V[:, :n] equals U[:, :n] diag(S[:n]),
which is fit's output. -/
theorem fit_apply_core (sqrt : ℚ → ℚ) (np sp : SvdOracle)
    (data : DF) (tf : List String) (n : ℕ) (cs : List (List Val))
    (out : SvdOut data.index.length tf.length)
    (hwf : data.WF)
    (hsel : selectCols data tf = Except.ok cs)
    (hnomiss : ∀ c ∈ cs, ∀ x ∈ c, x ≠ none)
    (hn1 : 1 ≤ n) (hn : n ≤ min data.index.length tf.length)
    (hk : tf.length ≠ 0)
    (hnp : np data.index.length tf.length (fitZ sqrt data tf cs) =
      Except.ok out)
    (hsvd : IsNumpySVD (fitZ sqrt data tf cs) out) :
    ∃ res adf,
      (svd_factor_extraction sqrt np sp data tf n).2 = Except.ok res ∧
      apply_svd_factors data tf res.weights res.scaling n = Except.ok adf ∧
      adf.index = res.factors.index ∧
      ∀ j, j < n →
        (adf.cols.getD j ("", [])).2 =
          (res.factors.cols.getD j ("", [])).2 := by
  obtain ⟨res, hbuild⟩ := buildFitRes_ok_of data.index tf n (colsMeans cs)
    (colsStds sqrt cs) out hn rfl rfl
  have hres : (svd_factor_extraction sqrt np sp data tf n).2 =
      Except.ok res := by
    simp only [svd_factor_extraction, hsel, hnp]
    exact hbuild
  obtain ⟨hcols, hwvals⟩ := buildFitRes_ok_content hbuild
  obtain ⟨-, -, -, hfidx, -, -, -, -, -, -, -, -, hscal⟩ :=
    buildFitRes_ok_parts hbuild
  have hmin : min n (min data.index.length tf.length) = n := min_eq_left hn
  have hk0 : 0 < tf.length := Nat.pos_of_ne_zero hk
  simp only [fitZ] at hnp hsvd
  have hsi : res.scaling =
      ScalingDF.mk (tf.zip ((colsMeans cs).zip (colsStds sqrt cs))) := by
    cases hsc : res.scaling with
    | mk rows =>
      rw [hsc] at hscal
      exact congrArg ScalingDF.mk hscal
  have happlyStd : applyStandardized res.scaling tf cs =
      colsStandardized sqrt cs := by
    rw [hsi]
    exact applyStandardized_fit_eq sqrt hsel
  have hWlen : res.weights.values.length = tf.length := by
    rw [hwvals]
    simp
  have hWrow : ∀ jj : Fin tf.length,
      res.weights.values.getD jj.val [] =
        (List.finRange (min n (min data.index.length tf.length))).map
          (fun j2 => (out.Vt.submatrix
            (Fin.castLE (Nat.min_le_right n (min data.index.length tf.length)))
            id).transpose jj j2) := by
    intro jj
    rw [hwvals, getD_map_finRange_nat tf.length _ jj.val [] jj.isLt]
  have hhead : res.weights.values.head? =
      some ((List.finRange (min n (min data.index.length tf.length))).map
        (fun j2 => (out.Vt.submatrix
          (Fin.castLE (Nat.min_le_right n (min data.index.length tf.length)))
          id).transpose ⟨0, hk0⟩ j2)) := by
    rw [hwvals, List.head?_map, List.head?_eq_getElem?,
      List.getElem?_eq_getElem (by simpa using hk0)]
    simp [List.getElem_finRange, Fin.cast]
  have hnw : ((res.weights.values.head?).map List.length).getD 0 = n := by
    rw [hhead]
    simp [hmin]
  have hcond : res.weights.values.length = tf.length ∧
      (res.weights.values.all (fun row => row.length =
        ((res.weights.values.head?).map List.length).getD 0)) := by
    refine ⟨hWlen, ?_⟩
    rw [List.all_eq_true]
    intro row hrow
    rw [hwvals] at hrow
    obtain ⟨f, -, rfl⟩ := List.mem_map.mp hrow
    rw [decide_eq_true_eq, hnw]
    simp [hmin]
  have hmatmul : npMatmulVal data.index.length tf.length
      (stdMatrix data.index.length tf.length (colsStandardized sqrt cs))
      res.weights.values =
      Except.ok ⟨((res.weights.values.head?).map List.length).getD 0,
        Matrix.of fun i l =>
          if (List.finRange tf.length).all
              (fun j => ((stdMatrix data.index.length tf.length
                (colsStandardized sqrt cs)) i j).isSome) then
            some (∑ j : Fin tf.length,
              ((stdMatrix data.index.length tf.length
                (colsStandardized sqrt cs)) i j).getD 0 *
              ((res.weights.values.getD j.val []).getD l.val 0))
          else none⟩ := by
    simp only [npMatmulVal]
    rw [if_pos hcond]
  have hcdf : (svdNames n).length =
      ((res.weights.values.head?).map List.length).getD 0 ∧
      data.index.length = data.index.length :=
    ⟨by rw [svdNames_length, hnw], rfl⟩
  have happ0 : apply_svd_factors data tf res.weights res.scaling n =
      dfOfMatrix data.index (svdNames n)
        (Matrix.of fun i (l : Fin (((res.weights.values.head?).map
            List.length).getD 0)) =>
          if (List.finRange tf.length).all
              (fun j => ((stdMatrix data.index.length tf.length
                (colsStandardized sqrt cs)) i j).isSome) then
            some (∑ j : Fin tf.length,
              ((stdMatrix data.index.length tf.length
                (colsStandardized sqrt cs)) i j).getD 0 *
              ((res.weights.values.getD j.val []).getD l.val 0))
          else none) := by
    simp only [apply_svd_factors, hsel, happlyStd, hmatmul]
  cases hdf : dfOfMatrix data.index (svdNames n)
      (Matrix.of fun i (l : Fin (((res.weights.values.head?).map
          List.length).getD 0)) =>
        if (List.finRange tf.length).all
            (fun j => ((stdMatrix data.index.length tf.length
              (colsStandardized sqrt cs)) i j).isSome) then
          some (∑ j : Fin tf.length,
            ((stdMatrix data.index.length tf.length
              (colsStandardized sqrt cs)) i j).getD 0 *
            ((res.weights.values.getD j.val []).getD l.val 0))
        else none) with
  | error e =>
    rw [dfOfMatrix, if_pos hcdf] at hdf
    exact Except.noConfusion hdf
  | ok adf =>
    obtain ⟨-, -, hadfidx, hadfcols⟩ := dfOfMatrix_ok_parts hdf
    refine ⟨res, adf, hres, by rw [happ0, hdf], by rw [hadfidx, hfidx], ?_⟩
    intro j hj
    have ha : j < ((res.weights.values.head?).map List.length).getD 0 := by
      rw [hnw]
      exact hj
    have ha' : j < min n (min data.index.length tf.length) := by
      rw [hmin]
      exact hj
    rw [hadfcols, getD_map_finRange_nat _ _ j ("", []) ha, hcols,
      getD_map_finRange_nat _ _ j ("", []) ha']
    simp only
    apply List.map_congr_left
    intro i hi
    have hall : ((List.finRange tf.length).all
        (fun jj => ((stdMatrix data.index.length tf.length
          (colsStandardized sqrt cs)) i jj).isSome)) = true := by
      rw [List.all_eq_true]
      intro jj hjj
      rw [hsvd.1 i jj]
      rfl
    simp only [Matrix.of_apply, hall, if_true]
    have hsum : (∑ jj : Fin tf.length,
        ((stdMatrix data.index.length tf.length
          (colsStandardized sqrt cs)) i jj).getD 0 *
        ((res.weights.values.getD jj.val []).getD j 0)) =
        ((out.U * Matrix.diagonal out.S * out.Vt) *
          (out.Vt.submatrix
            (Fin.castLE (Nat.min_le_right n (min data.index.length tf.length)))
            id).transpose) i ⟨j, ha'⟩ := by
      rw [Matrix.mul_apply]
      apply Finset.sum_congr rfl
      intro jj _
      rw [hsvd.1 i jj, Option.getD_some, hWrow jj,
        getD_map_finRange_nat _ _ j 0 ha']
    rw [hsum, project_training_eq (Nat.min_le_right n _) out.U out.S out.Vt
      hsvd.2.2.1]

/-- C1 (amended): applying apply_svd_factors to an exact copy of the
training data (no missing values), with the weights and statistics
returned by svd_factor_extraction, reproduces fit's factor table exactly:
for every retained component i, apply's output column i equals fit's
output column i, with no rescaling by the singular value S[i]. -/
theorem fit_equals_apply_on_training (sqrt : ℚ → ℚ) (np sp : SvdOracle)
    (data : DF) (tf : List String) (n : ℕ) (cs : List (List Val))
    (out : SvdOut data.index.length tf.length)
    (hwf : data.WF)
    (hsel : selectCols data tf = Except.ok cs)
    (hnomiss : ∀ c ∈ cs, ∀ x ∈ c, x ≠ none)
    (hn1 : 1 ≤ n) (hn : n ≤ min data.index.length tf.length)
    (hk : tf.length ≠ 0)
    (hnp : np data.index.length tf.length (fitZ sqrt data tf cs) =
      Except.ok out)
    (hsvd : IsNumpySVD (fitZ sqrt data tf cs) out) :
    ∃ res adf,
      (svd_factor_extraction sqrt np sp data tf n).2 = Except.ok res ∧
      apply_svd_factors data tf res.weights res.scaling n = Except.ok adf ∧
      adf.index = res.factors.index ∧
      ∀ j, j < n →
        (adf.cols.getD j ("", [])).2 =
          (res.factors.cols.getD j ("", [])).2 :=
  fit_apply_core sqrt np sp data tf n cs out hwf hsel hnomiss hn1 hn hk
    hnp hsvd

/-! ### A concrete training table on which the original rescaling claim
fails.

The selected column [1, 1, 3, 5, 5] has mean 3 and sample standard
deviation 2, so the standardized column is [-1, -1, 0, 1, 1], whose exact
thin decomposition is U = [-1/2, -1/2, 0, 1/2, 1/2] (a unit vector),
S = [2], Vt = [[1]]; the singular value 2 is uniquely determined.  Fit's
factor column is U S = [-1, -1, 0, 1, 1]; apply on the same data returns
the same column, not the column divided by S. -/

def c1Col : List Val := [some 1, some 1, some 3, some 5, some 5]

def c1Data : DF := DF.mk [0, 1, 2, 3, 4] [("f", c1Col)]

def c1U : ℕ → ℚ := fun i => [(-1 : ℚ)/2, -1/2, 0, 1/2, 1/2].getD i 0

/-- A decomposition routine that returns, at every shape, the matrices of
the decomposition above (only its value at the 5 by 1 standardized
training matrix is ever used). -/
def c1Oracle : SvdOracle := fun _ _ _ =>
  Except.ok ⟨Matrix.of (fun i _ => c1U i.val), fun _ => 2,
    Matrix.of (fun _ _ => 1)⟩

def c1Out : SvdOut 5 1 :=
  ⟨Matrix.of (fun i _ => c1U i.val), fun _ => 2, Matrix.of (fun _ _ => 1)⟩

theorem c1_sel : selectCols c1Data ["f"] = Except.ok [c1Col] := by decide

theorem c1_means : colsMeans [c1Col] = [some 3] := by
  simp only [colsMeans, colMean, presentVals, c1Col, List.map_cons,
    List.map_nil, List.filterMap_cons, List.filterMap_nil, id]
  norm_num

theorem c1_sqrt4 : Rat.sqrt 4 = 2 := by
  rw [show (4 : ℚ) = 2 * 2 by norm_num, Rat.sqrt_eq]
  norm_num

theorem c1_stds : colsStds Rat.sqrt [c1Col] = [some 2] := by
  simp only [colsStds, colStd, colVar, presentVals, sqDevSum, c1Col,
    List.map_cons, List.map_nil, List.filterMap_cons, List.filterMap_nil, id]
  norm_num [c1_sqrt4]

theorem c1_standardized : colsStandardized Rat.sqrt [c1Col] =
    [[some (-1), some (-1), some 0, some 1, some 1]] := by
  simp only [colsStandardized, colsFilled, c1_means, c1_stds]
  norm_num [List.zipWith, ffill, fsub, fdiv, c1Col]

theorem c1_fitZ : ∀ (i : Fin c1Data.index.length)
    (j : Fin (["f"] : List String).length),
    fitZ Rat.sqrt c1Data ["f"] [c1Col] i j =
      some ([(-1 : ℚ), -1, 0, 1, 1].getD i.val 0) := by
  intro i j
  fin_cases i <;> fin_cases j <;>
    simp [fitZ, stdMatrix, c1_standardized]

theorem c1_svd :
    @IsNumpySVD 5 1 (fitZ Rat.sqrt c1Data ["f"] [c1Col]) c1Out := by
  haveI hu : Unique (Fin (min 5 1)) :=
    ⟨⟨⟨0, by norm_num⟩⟩, fun x => by ext; omega⟩
  refine ⟨?_, ?_, ?_, ?_, ?_⟩
  · intro i j
    rw [c1_fitZ i j]
    rw [show (c1Out.U * Matrix.diagonal c1Out.S * c1Out.Vt) i j =
        ∑ a, (∑ b, c1Out.U i b * Matrix.diagonal c1Out.S b a) *
          c1Out.Vt a j by simp [Matrix.mul_apply]]
    rw [Fintype.sum_unique]
    rw [Fintype.sum_unique]
    simp only [c1Out, Matrix.of_apply, Matrix.diagonal_apply_eq]
    fin_cases i <;> norm_num [c1U]
  · ext a b
    rw [show (c1Out.U.transpose * c1Out.U) a b =
        ∑ i : Fin 5, c1Out.U i a * c1Out.U i b by
      simp [Matrix.mul_apply, Matrix.transpose_apply]]
    rw [Subsingleton.elim a b, Fin.sum_univ_five]
    simp only [c1Out, Matrix.of_apply]
    rw [Matrix.one_apply_eq]
    have h3 : ((3 : Fin 5) : ℕ) = 3 := rfl
    have h4 : ((4 : Fin 5) : ℕ) = 4 := rfl
    norm_num [c1U, h3, h4]
  · ext a b
    rw [show (c1Out.Vt * c1Out.Vt.transpose) a b =
        ∑ j : Fin 1, c1Out.Vt a j * c1Out.Vt b j by
      simp [Matrix.mul_apply, Matrix.transpose_apply]]
    rw [Subsingleton.elim a b, Fin.sum_univ_one]
    simp only [c1Out, Matrix.of_apply]
    rw [Matrix.one_apply_eq]
    norm_num
  · intro a b hab
    exact le_refl _
  · intro a
    norm_num [c1Out]

/-- C1 counterexample: on the training table with column [1, 1, 3, 5, 5]
(no missing values), with n_factors = 1 and the genuine thin
decomposition of its standardized column (singular value 2, which is
uniquely determined, so every valid decomposition of this matrix yields
the same singular value), fit's factor column starts with -1 and equals
apply's column exactly; apply's column rescaled by S[0] = 2 starts with
-2, so the claimed identity fit_factors[:, i] = apply_factors[:, i] * S[i]
is false at this input. -/
theorem fit_apply_rescaling_counterexample :
    ∃ res adf,
      (svd_factor_extraction Rat.sqrt c1Oracle c1Oracle c1Data ["f"] 1).2 =
        Except.ok res ∧
      c1Oracle c1Data.index.length (["f"] : List String).length
        (fitZ Rat.sqrt c1Data ["f"] [c1Col]) = Except.ok c1Out ∧
      IsNumpySVD (fitZ Rat.sqrt c1Data ["f"] [c1Col]) c1Out ∧
      apply_svd_factors c1Data ["f"] res.weights res.scaling 1 =
        Except.ok adf ∧
      res.singvals.getD 0 0 = 2 ∧
      (res.factors.cols.getD 0 ("", [])).2.getD 0 none = some (-1) ∧
      (adf.cols.getD 0 ("", [])).2.getD 0 none = some (-1) ∧
      ¬ ((res.factors.cols.getD 0 ("", [])).2 =
          (adf.cols.getD 0 ("", [])).2.map
            (Option.map (fun q => q * res.singvals.getD 0 0))) := by
  obtain ⟨res, adf, hres, happ, hidx, hcolseq⟩ :=
    fit_apply_core Rat.sqrt c1Oracle c1Oracle c1Data ["f"] 1 [c1Col] c1Out
      (by decide) c1_sel (by decide) (by decide) (by decide) (by decide)
      rfl c1_svd
  have hbuild : buildFitRes c1Data.index ["f"] 1 (colsMeans [c1Col])
      (colsStds Rat.sqrt [c1Col]) c1Out = Except.ok res := by
    have h := hres
    simp only [svd_factor_extraction, c1_sel, c1Oracle] at h
    exact h
  obtain ⟨hcols, -⟩ := buildFitRes_ok_content hbuild
  obtain ⟨-, -, -, -, -, -, -, hsing, -, -, -, -, -⟩ :=
    buildFitRes_ok_parts hbuild
  have hsv : res.singvals.getD 0 0 = 2 := by
    rw [hsing, getD_map_finRange_nat _ _ 0 0 (by decide)]
    rfl
  have hcell : (res.factors.cols.getD 0 ("", [])).2.getD 0 none =
      some (-1) := by
    rw [hcols, getD_map_finRange_nat _ _ 0 ("", []) (by decide)]
    simp only
    rw [getD_map_finRange_nat _ _ 0 none (by decide)]
    rw [Matrix.mul_diagonal]
    simp only [Matrix.submatrix_apply, c1Out, Matrix.of_apply, id]
    norm_num [c1U]
  have hacell : (adf.cols.getD 0 ("", [])).2.getD 0 none = some (-1) := by
    rw [hcolseq 0 (by norm_num), hcell]
  refine ⟨res, adf, hres, rfl, c1_svd, happ, hsv, hcell, hacell, ?_⟩
  intro heq
  have h0 : (res.factors.cols.getD 0 ("", [])).2.getD 0 none =
      ((adf.cols.getD 0 ("", [])).2.map
        (Option.map (fun q => q * res.singvals.getD 0 0))).getD 0 none :=
    congrArg (fun l => l.getD 0 none) heq
  rw [hcell] at h0
  rcases hl : (adf.cols.getD 0 ("", [])).2 with _ | ⟨a, t⟩
  · rw [hl] at hacell
    cases hacell
  · rw [hl] at h0 hacell
    simp only [List.map_cons, List.getD_cons_zero] at h0 hacell
    rw [hacell, hsv] at h0
    simp only [Option.map_some'] at h0
    have hcon : (-1 : ℚ) = -1 * 2 := by
      injection h0
    norm_num at hcon

theorem fit_equals_apply_on_training_witness :
    ∃ res adf,
      (svd_factor_extraction Rat.sqrt c1Oracle c1Oracle c1Data ["f"] 1).2 =
        Except.ok res ∧
      apply_svd_factors c1Data ["f"] res.weights res.scaling 1 =
        Except.ok adf ∧
      adf.index = res.factors.index ∧
      ∀ j, j < 1 →
        (adf.cols.getD j ("", [])).2 =
          (res.factors.cols.getD j ("", [])).2 :=
  fit_equals_apply_on_training Rat.sqrt c1Oracle c1Oracle c1Data ["f"] 1
    [c1Col] c1Out (by decide) c1_sel (by decide) (by decide) (by decide)
    (by decide) rfl c1_svd

end FactorSVD
